import Mathlib

/-!
Shallow embedding of `pyxtal/interface/gulp.py` (the GULP calculator adapter of the
PyXtal repository) and proofs about its behaviour.

Python strings are modelled as `List Char`; Python floats are modelled exactly as
rationals extended with `nan` and signed infinities (`PyFloat`); fallible Python code
(statements that can raise) is modelled with `Option`/`Except`.  File-system and
subprocess effects are modelled as an explicit event trace.
-/

namespace PyxtalGulp

/- Batteries marks the rational-number arithmetic `@[irreducible]`; re-enable
unfolding so that concrete witnesses evaluate by `decide`. -/
attribute [local semireducible] Rat.add Rat.mul Rat.sub Rat.inv

/-- Python strings are modelled as lists of characters. -/
abbrev Str := List Char

/-- Coercion from Lean string literals into the model's string type. -/
def str (s : String) : Str := s.data

/-- The whitespace characters recognised by Python's `str.split()` / `float()` /
`int()` (space, tab, linefeed, carriage return, form feed, vertical tab). -/
def isWs (c : Char) : Bool :=
  c = ' ' || c = '\t' || c = '\n' || c = '\r' || c = '\x0c' || c = '\x0b'

/-- `str.strip()` (strip whitespace from both ends). -/
def pystrip (s : Str) : Str :=
  ((s.dropWhile isWs).reverse.dropWhile isWs).reverse

theorem dropWhile_length_le {α : Type} (p : α → Bool) (l : List α) :
    (l.dropWhile p).length ≤ l.length := by
  induction l with
  | nil => simp [List.dropWhile]
  | cons c r ih =>
    rw [List.dropWhile_cons]
    by_cases h : p c
    · simp only [h, if_true, List.length_cons]
      omega
    · simp [h]

/-- Fuel-based worker for `pysplit` (structural recursion on the fuel, so that the
kernel can evaluate it; `pysplit` supplies fuel `s.length`, which always
suffices). -/
def pysplitF : Nat → Str → List Str
  | _, [] => []
  | 0, _ :: _ => []
  | fuel + 1, c :: rest =>
    if isWs c then pysplitF fuel rest
    else
      (c :: rest.takeWhile (fun d => !isWs d)) ::
        pysplitF fuel (rest.dropWhile (fun d => !isWs d))

/-- Python's `str.split()` with no argument: split on runs of whitespace,
dropping empty pieces. -/
def pysplit (s : Str) : List Str := pysplitF s.length s

/-- The result of `pysplitF` does not depend on the fuel, as long as it covers
the length of the string. -/
theorem pysplitF_congr :
    ∀ (f1 : Nat) (s : Str) (f2 : Nat), s.length ≤ f1 → s.length ≤ f2 →
      pysplitF f1 s = pysplitF f2 s := by
  intro f1
  induction f1 with
  | zero =>
    intro s f2 h1 _
    match s, h1 with
    | [], _ => cases f2 <;> rfl
  | succ f ih =>
    intro s f2 h1 h2
    match s with
    | [] => cases f2 <;> rfl
    | c :: rest =>
      match f2, h2 with
      | f2' + 1, h2 =>
        rw [pysplitF, pysplitF]
        simp only [List.length_cons] at h1 h2
        by_cases hc : isWs c
        · simp only [hc, if_true]
          exact ih rest f2' (by omega) (by omega)
        · simp only [hc, Bool.false_eq_true, if_false]
          have hd : (rest.dropWhile (fun d => !isWs d)).length ≤ rest.length :=
            dropWhile_length_le _ _
          rw [ih (rest.dropWhile (fun d => !isWs d)) f2' (by omega) (by omega)]

/-- `line.find(sub) != -1`, i.e. `sub` occurs as a contiguous substring of `line`
(`sub.isPrefixOf []` is `true` exactly for an empty `sub`, as with `str.find`). -/
def hasSub : Str → Str → Bool
  | [], sub => sub.isPrefixOf []
  | c :: r, sub => if sub.isPrefixOf (c :: r) then true else hasSub r sub

/-- Value of a decimal digit character. -/
def digitVal (c : Char) : Nat := c.toNat - 48

/-- Natural number denoted by a list of decimal digit characters (empty list gives 0). -/
def digitsToNat (l : Str) : Nat := l.foldl (fun a c => 10 * a + digitVal c) 0

/-- Python float values: a rational (Python doubles are modelled exactly as the
rationals their decimal source text denotes), `nan`, or a signed infinity. -/
inductive PyFloat where
  | num (q : ℚ)
  | nan
  | inf (neg : Bool)
deriving DecidableEq

/-- `-x` on Python floats (note `-float('nan')` is still `nan`). -/
def PyFloat.neg : PyFloat → PyFloat
  | .num q => .num (-q)
  | .nan => .nan
  | .inf b => .inf (!b)

/-- `x * a` for a float `x` and an exact rational constant `a`. -/
def PyFloat.mulQ : PyFloat → ℚ → PyFloat
  | .num q, a => .num (q * a)
  | .nan, _ => .nan
  | .inf b, a => if 0 < a then .inf b else if a < 0 then .inf (!b) else .nan

/-- `x / a` for a float `x` and a nonzero exact rational constant `a`
(in this development it is only applied with `a = Ang = 1`; Python would raise
`ZeroDivisionError` at `a = 0`, a case no caller reaches). -/
def PyFloat.divQ : PyFloat → ℚ → PyFloat
  | .num q, a => .num (q / a)
  | .nan, _ => .nan
  | .inf b, a => if 0 < a then .inf b else if a < 0 then .inf (!b) else .nan

/-- `x + y` on Python floats. -/
def PyFloat.add : PyFloat → PyFloat → PyFloat
  | .num a, .num b => .num (a + b)
  | .nan, _ => .nan
  | _, .nan => .nan
  | .inf a, .inf b => if a = b then .inf a else .nan
  | .inf a, .num _ => .inf a
  | .num _, .inf b => .inf b

/-- `np.isnan` on a float. -/
def PyFloat.isnan : PyFloat → Bool
  | .nan => true
  | _ => false

/-- Kernel-friendly power `b ^ n` on the rationals. -/
def qpowNat (b : ℚ) : Nat → ℚ
  | 0 => 1
  | n + 1 => b * qpowNat b n

/-- Kernel-friendly power `b ^ e` for an integer exponent. -/
def qpowInt (b : ℚ) : ℤ → ℚ
  | .ofNat n => qpowNat b n
  | .negSucc n => 1 / qpowNat b (n + 1)

instance {ε α : Type} [DecidableEq ε] [DecidableEq α] : DecidableEq (Except ε α) := fun x y =>
  match x, y with
  | .error a, .error b =>
    if h : a = b then .isTrue (by rw [h]) else .isFalse (fun hh => h (by injection hh))
  | .ok a, .ok b =>
    if h : a = b then .isTrue (by rw [h]) else .isFalse (fun hh => h (by injection hh))
  | .error _, .ok _ => .isFalse (fun hh => Except.noConfusion hh)
  | .ok _, .error _ => .isFalse (fun hh => Except.noConfusion hh)

/-- Sign parsing shared by `float()` and `int()`: an optional leading `-`/`+`.
Returns (is negative, rest). -/
def parseSign : Str → Bool × Str
  | '-' :: r => (true, r)
  | '+' :: r => (false, r)
  | s => (false, s)

/-- The mantissa part of Python's `float()` grammar:
`digits [ "." digits* ] | "." digits` (underscore separators are not modelled).
Returns the denoted rational and the unconsumed rest. -/
def parseMantissa (s : Str) : Option (ℚ × Str) :=
  let intd := s.takeWhile Char.isDigit
  let s1 := s.dropWhile Char.isDigit
  match s1 with
  | '.' :: s2 =>
    let fracd := s2.takeWhile Char.isDigit
    let s3 := s2.dropWhile Char.isDigit
    if intd.isEmpty && fracd.isEmpty then none
    else some ((digitsToNat intd : ℚ) + (digitsToNat fracd : ℚ) / qpowNat 10 fracd.length, s3)
  | _ =>
    if intd.isEmpty then none else some ((digitsToNat intd : ℚ), s1)

/-- The optional exponent part of `float()`'s grammar: `[("e"|"E") [sign] digits]`.
`none` means the whole parse fails (an `e` not followed by digits). -/
def parseExpPart : Str → Option (ℤ × Str)
  | c :: r =>
    if c = 'e' || c = 'E' then
      let (eneg, r1) := parseSign r
      let ed := r1.takeWhile Char.isDigit
      if ed.isEmpty then none
      else some ((if eneg then -(digitsToNat ed : ℤ) else (digitsToNat ed : ℤ)),
                 r1.dropWhile Char.isDigit)
    else some (0, c :: r)
  | [] => some (0, [])

/-- Python's `float(s)`: strips whitespace, an optional sign, then either
`inf`/`infinity`/`nan` (case-insensitively) or a decimal number with optional
exponent; anything else raises `ValueError` (modelled as `none`). -/
def pyfloat (s : Str) : Option PyFloat :=
  let t := pystrip s
  let (neg, s1) := parseSign t
  let low := s1.map Char.toLower
  if low = str "inf" || low = str "infinity" then some (.inf neg)
  else if low = str "nan" then some .nan
  else
    match parseMantissa s1 with
    | none => none
    | some (m, rest) =>
      match parseExpPart rest with
      | none => none
      | some (e, rest2) =>
        if rest2.isEmpty then
          some (.num ((if neg then -m else m) * qpowInt 10 e))
        else none

/-- Python's `int(s)` on a string: strips whitespace, an optional sign, then
decimal digits only; anything else raises `ValueError` (modelled as `none`). -/
def pyint (s : Str) : Option ℤ :=
  let t := pystrip s
  let (neg, s1) := parseSign t
  let ds := s1.takeWhile Char.isDigit
  if ds.isEmpty || !(s1.dropWhile Char.isDigit).isEmpty then none
  else some (if neg then -(digitsToNat ds : ℤ) else (digitsToNat ds : ℤ))

/-- Literal matching: consume `pat` from the front of `s`, returning the rest. -/
def litMatch : Str → Str → Option Str
  | [], s => some s
  | _ :: _, [] => none
  | p :: ps, c :: cs => if p = c then litMatch ps cs else none

/-- Backtracking for the greedy group `(\S+)` of the energy regex followed by
`\s*eV`: try capture lengths `k, k-1, ..., 1` of `tok` (longest first, as a greedy
group does) and accept the first whose remainder, after optional whitespace,
starts with `eV`. -/
def tryCaptures : Nat → Str → Str → Option Str
  | 0, _, _ => none
  | k + 1, tok, rest =>
    if (str "eV").isPrefixOf (((tok.drop (k + 1)) ++ rest).dropWhile isWs) then
      some (tok.take (k + 1))
    else tryCaptures k tok rest

/-- `re.match(r'\s*Total lattice energy\s*=\s*(\S+)\s*eV', line)`, returning the
captured group.  (`\s*` before a literal or before `\S+` may be taken maximal
without loss: giving back a whitespace character could only be followed by a
non-whitespace requirement, which would fail at once.) -/
def reMatchEnergy (line : Str) : Option Str :=
  match litMatch (str "Total lattice energy") (line.dropWhile isWs) with
  | none => none
  | some s1 =>
    match s1.dropWhile isWs with
    | '=' :: s3 =>
      let s4 := s3.dropWhile isWs
      let tok := s4.takeWhile (fun c => !isWs c)
      let rest := s4.dropWhile (fun c => !isWs c)
      if tok.isEmpty then none else tryCaptures tok.length tok rest
    | _ => none

/-! ## Units, lattice, structures

`from ase.units import eV, Ang`: in ASE's unit system both `eV` and `Ang` are the
base units, numerically `1.0`. -/

def eV : ℚ := 1

def Ang : ℚ := 1

/-- `pyxtal.lattice.Lattice` as used by this module: built from and carrying a 3x3
matrix (`Lattice.from_matrix`).  The matrix rows are lists of floats. -/
structure Lattice where
  matrix : List (List PyFloat)
deriving DecidableEq

def Lattice.from_matrix (m : List (List PyFloat)) : Lattice := ⟨m⟩

/-- The six lattice parameters `a, b, c, alpha, beta, gamma` returned by
`Lattice.get_para(degree=True)` (angles in degrees). -/
structure Para where
  a : PyFloat
  b : PyFloat
  c : PyFloat
  alpha : PyFloat
  beta : PyFloat
  gamma : PyFloat
deriving DecidableEq

/-- An `ase.Atoms` object as consumed by this module: a cell matrix, scaled
(fractional) positions and chemical symbols. -/
structure Atoms where
  cell : List (List PyFloat)
  scaled_positions : List (List PyFloat)
  chemical_symbols : List Str
deriving DecidableEq

/-- A `pyxtal` structure object as consumed by this module. -/
structure Pyxtal where
  atoms : Atoms
deriving DecidableEq

/-- Modelled from the spec: `pyxtal.to_ase()` is not part of this repository
snapshot; the spec says the adapter works on "a crystal structure (lattice +
fractional coordinates + species)", so the model lets a pyxtal object carry its
ASE form directly. -/
def Pyxtal.to_ase (p : Pyxtal) : Atoms := p.atoms

/-- The possible runtime types of the `struc` argument of `GULP.__init__`:
a pyxtal object, an ASE `Atoms` object, or anything else. -/
inductive StrucArg where
  | pyx (p : Pyxtal)
  | atoms (a : Atoms)
  | other
deriving DecidableEq

/-- The `GULP` calculator object: the fields set by `__init__` and mutated by
`read`.  `struc` is the Python attribute `self.structure` (renamed: `structure`
is a Lean keyword). -/
structure GULP where
  lattice : Lattice
  frac_coords : List (List PyFloat)
  sites : List Str
  struc : Atoms
  label : Str
  ff : Str
  opt : Str
  exe : Str
  steps : ℤ
  folder : Str
  input : Str
  output : Str
  dump : Option Str
  iter : ℤ
  energy : Option PyFloat
  stress : Option (List PyFloat)
  forces : Option (List (List PyFloat))
  positions : Option (List (List PyFloat))
  optimized : Bool
  cputime : PyFloat
  error : Bool
deriving DecidableEq

/-- `GULP.__init__`.  A pyxtal argument is first converted with `to_ase`; an
`Atoms` object is accepted; anything else raises
`NotImplementedError("only support ASE atoms object")`, modelled as `.error`.
(The `os.makedirs` side effect on the scratch folder is not modelled.)
In the source the parameters default to `label="_", path='tmp', ff='reax',
opt='conp', steps=1000, exe='gulp', input='gulp.in', output='gulp.log',
dump=None`; callers of this model pass them explicitly. -/
def GULP.init (strucArg : StrucArg) (label path ff opt : Str) (steps : ℤ)
    (exe input output : Str) (dump : Option Str) : Except Str GULP :=
  let conv : Option Atoms :=
    match strucArg with
    | .pyx p => some p.to_ase
    | .atoms a => some a
    | .other => none
  match conv with
  | none => .error (str "only support ASE atoms object")
  | some s =>
    .ok
      { lattice := Lattice.from_matrix s.cell
        frac_coords := s.scaled_positions
        sites := s.chemical_symbols
        struc := s
        label := label
        ff := ff
        opt := opt
        exe := exe
        steps := steps
        folder := path
        input := path ++ str "/" ++ label ++ input
        output := path ++ str "/" ++ label ++ output
        dump := dump
        iter := 0
        energy := none
        stress := none
        forces := none
        positions := none
        optimized := false
        cputime := .num 0
        error := false }

/-! ## `GULP.write`: serialization of the input deck

Each `f.write(...)` call of the source becomes one "chunk" (a `Str`); the file
content is the concatenation of the chunks. -/

/-- Decimal digit characters of a natural number, most significant first
(fuel-based; the fuel `n + 1` always suffices). -/
def natCharsAux : Nat → Nat → Str
  | 0, _ => []
  | fuel + 1, n =>
    if n ≤ 9 then [Char.ofNat (48 + n)]
    else natCharsAux fuel (n / 10) ++ [Char.ofNat (48 + n % 10)]

def natChars (n : Nat) : Str := natCharsAux (n + 1) n

/-- Python's `'{:d}'.format(n)` for an int. -/
def intRepr (n : ℤ) : Str :=
  if n < 0 then '-' :: natChars n.natAbs else natChars n.natAbs

/-- Pad on the left with spaces to width `w` (no-op when already at least `w`). -/
def padLeft (w : Nat) (s : Str) : Str := List.replicate (w - s.length) ' ' ++ s

/-- Pad on the right with spaces to width `w` (Python's `'{:4s}'.format`). -/
def fmt4s (s : Str) : Str := s ++ List.replicate (4 - s.length) ' '

/-- Pad on the left with zeros to width `w`. -/
def padZeros (w : Nat) (s : Str) : Str := List.replicate (w - s.length) '0' ++ s

/-- Floor of a rational (kernel-friendly: `Int.fdiv` of numerator by denominator). -/
def ratFloor (q : ℚ) : ℤ := Int.fdiv q.num q.den

/-- Round to the nearest integer, ties to even (the rounding used when formatting
a float with a fixed number of decimals). -/
def roundHalfEven (q : ℚ) : ℤ :=
  let f := ratFloor q
  let r := q - f
  if r < 1 / 2 then f
  else if 1 / 2 < r then f + 1
  else if f % 2 = 0 then f else f + 1

/-- Python's `'{:12.6f}'.format(x)`: six decimals, right-aligned in a field of
width 12 (`nan` and infinities format as `nan` / `inf` / `-inf`). -/
def fmt12_6 : PyFloat → Str
  | .num q =>
    let n := (roundHalfEven (q * 1000000)).natAbs
    let core := natChars (n / 1000000) ++ '.' :: padZeros 6 (natChars (n % 1000000))
    padLeft 12 (if q < 0 then '-' :: core else core)
  | .nan => padLeft 12 (str "nan")
  | .inf b => padLeft 12 (if b then str "-inf" else str "inf")

/-- One line of the `fractional` block:
`'{:4s} {:12.6f} {:12.6f} {:12.6f} core \n'.format(site, *coord)`.
`str.format` raises `IndexError` when `coord` has fewer than three entries and
ignores any extras. -/
def fracChunk (coord : List PyFloat) (site : Str) : Option Str :=
  match coord with
  | x :: y :: z :: _ =>
    some (fmt4s site ++ ' ' :: fmt12_6 x ++ ' ' :: fmt12_6 y ++ ' ' :: fmt12_6 z
          ++ str " core \n")
  | _ => none

/-- One line of the `Species` block: `'{:4s} core {:4s}\n'.format(specie, specie)`. -/
def speciesChunk (specie : Str) : Str :=
  fmt4s specie ++ str " core " ++ fmt4s specie ++ str "\n"

/-- The first keyword line of the deck (first `if/elif/else` of `write`; note the
`conv` and default branches emit the same text). -/
def headChunk (g : GULP) : Str :=
  if g.opt = str "conv" then
    str "opti stress " ++ (g.opt ++ str " conjugate nosymmetry\n")
  else if g.opt = str "single" then str "grad conp stress\n"
  else str "opti stress " ++ (g.opt ++ str " conjugate nosymmetry\n")

/-- The line of the `cell` block:
`'{:12.6f}{:12.6f}{:12.6f}{:12.6f}{:12.6f}{:12.6f}\n'.format(a, b, c, alpha, beta, gamma)`. -/
def cellChunk (p : Para) : Str :=
  fmt12_6 p.a ++ (fmt12_6 p.b ++ (fmt12_6 p.c ++ (fmt12_6 p.alpha
    ++ (fmt12_6 p.beta ++ (fmt12_6 p.gamma ++ str "\n")))))

/-- `'\nlibrary {:s}\n'.format(self.ff)`. -/
def libChunk (g : GULP) : Str := str "\nlibrary " ++ (g.ff ++ str "\n")

/-- `'maxcycle {:d}\n'.format(self.steps)`. -/
def maxcycleChunk (g : GULP) : Str := str "maxcycle " ++ (intRepr g.steps ++ str "\n")

/-- `'output cif {:s}\n'.format(self.dump)`. -/
def dumpChunk (d : Str) : Str := str "output cif " ++ (d ++ str "\n")

/-- The `f.write` chunks emitted by `GULP.write`, in order.  `get_para` stands for
`self.lattice.get_para(degree=True)` (from `pyxtal.lattice`, outside this
repository snapshot), passed in as a function.  `list(set(self.sites))` is
modelled as `List.dedup` (Python's set order is unspecified; only "each distinct
element exactly once" is relied upon).  `none` models the `IndexError` raised by
`format` when a coordinate row has fewer than three entries. -/
def GULP.writeChunks (get_para : Lattice → Para) (g : GULP) : Option (List Str) :=
  match (g.frac_coords.zip g.sites).mapM (fun cs => fracChunk cs.1 cs.2) with
  | none => none
  | some fracChunks =>
    some
      ([headChunk g, str "\ncell\n", cellChunk (get_para g.lattice), str "\nfractional\n"]
        ++ fracChunks
        ++ [str "\nSpecies\n"] ++ (g.sites.dedup).map speciesChunk
        ++ [libChunk g, str "ewald 10.0\n"]
        ++ (if g.opt ≠ str "single" then [maxcycleChunk g] else [])
        ++ (match g.dump with
            | some d => [dumpChunk d]
            | none => []))

/-! ## Effects: events emitted by `write`, `execute`, `clean`, `run` -/

/-- Observable file-system / subprocess effects. -/
inductive Event where
  | writeFile (path : Str) (chunks : List Str)
  | system (cmd : Str)
  | readFile (path : Str)
  | remove (path : Str)
deriving DecidableEq

/-- `GULP.execute`: a single blocking `os.system` call of
`self.exe + '<' + self.input + '>' + self.output`. -/
def GULP.execute (g : GULP) : List Event :=
  [.system (g.exe ++ str "<" ++ g.input ++ str ">" ++ g.output)]

/-- `GULP.clean`: remove the input and output files, and the dump file when one
was configured. -/
def GULP.cleanEvents (g : GULP) : List Event :=
  [.remove g.input, .remove g.output]
    ++ (match g.dump with
        | some d => [.remove d]
        | none => [])

/-! ## `GULP.read`: parsing of the report -/

/-- The dashed terminator the table loops look for. -/
def dashes12 : Str := str "------------"

/-- Conversion applied to each recovered force component: `-float(x) * eV / Ang`. -/
def convForce (x : Str) : Option PyFloat :=
  (pyfloat x).map (fun v => (v.neg.mulQ eV).divQ Ang)

/-- `[i+1 for i, e in enumerate(tok[1:]) if e == '-']`: positions (into `tok`) of
the `-` characters at index at least 1.  `minusIdxAux r k` lists the positions of
the dashes of `r`, offset by `k`. -/
def minusIdxAux : Str → Nat → List Nat
  | [], _ => []
  | c :: r, k => if c = '-' then k :: minusIdxAux r (k + 1) else minusIdxAux r (k + 1)

def minusIdx : Str → List Nat
  | [] => []
  | _ :: r => minusIdxAux r 1

/-- The merged-column repair (`for j in range(2)` over `min_index`) of the forces
parser, acting on the padded token triple.  `j = 0` splits the first token at its
interior minus signs (shifting the other columns, or — with two interior minuses —
filling all three columns and breaking); `j = 1` then splits the (possibly new)
second token at its first interior minus. -/
def splitForces (g0 g1 g2 : Str) : Str × Str × Str :=
  match minusIdx g0 with
  | [] =>
    (match minusIdx g1 with
     | [] => (g0, g1, g2)
     | k :: _ => (g0, g1.take k, g1.drop k))
  | [k] =>
    let g2' := g1
    let g1' := g0.drop k
    let g0' := g0.take k
    (match minusIdx g1' with
     | [] => (g0', g1', g2')
     | k2 :: _ => (g0', g1'.take k2, g1'.drop k2))
  | k1 :: k2 :: _ =>
    (g0.take k1, (g0.take k2).drop k1, g0.drop k2)

/-- `g = lines[s].split()[3:6]` followed by `g.append(' ')` up to length 3. -/
def forceTriple (toks : List Str) : Str × Str × Str :=
  match (toks.drop 3).take 3 with
  | [a, b, c] => (a, b, c)
  | [a, b] => (a, b, [' '])
  | [a] => (a, [' '], [' '])
  | _ => ([' '], [' '], [' '])

/-- Process one atom line of the forces table into its stored row
`[-float(x) * eV / Ang for x in g]`; `none` when a `float()` call raises. -/
def forceRow (line : Str) : Option (List PyFloat) :=
  match splitForces (forceTriple (pysplit line)).1 (forceTriple (pysplit line)).2.1
      (forceTriple (pysplit line)).2.2 with
  | (a, b, c) =>
    match convForce a, convForce b, convForce c with
    | some x, some y, some z => some [x, y, z]
    | _, _, _ => none

/-- The `while True` loop of the forces branch: starting from `s`, repeatedly
increment `s` and look at `lines[s]`; stop at a dashed line, else parse an atom
row.  `.error ()` models an exception (an `IndexError` running past the end of
`lines`, or a failed `float`).  The caller's fuel `lines.length + 1` is enough
for the loop to always reach its Python outcome. -/
def forcesLoop (lines : List Str) : Nat → Nat → List (List PyFloat) →
    Except Unit (List (List PyFloat))
  | 0, _, _ => .error ()
  | fuel + 1, s, acc =>
    match lines.get? (s + 1) with
    | none => .error ()
    | some line =>
      if hasSub line dashes12 then .ok acc
      else
        match forceRow line with
        | none => .error ()
        | some row => forcesLoop lines fuel (s + 1) (acc ++ [row])

/-- Process one row of the fractional-coordinates table: `[float(x) for x in
lines[s].split()[3:6]]` (the species token `split()[1]` is also demanded — its
absence is an `IndexError` — but then discarded by the source). -/
def fracRow (line : Str) : Option (List PyFloat) :=
  match (((pysplit line).drop 3).take 3).mapM pyfloat with
  | none => none
  | some xyz =>
    match (pysplit line).get? 1 with
    | none => none
    | some _ => some xyz

/-- The `while True` loop of the fractional-coordinates branch (same shape as
`forcesLoop`). -/
def fracLoop (lines : List Str) : Nat → Nat → List (List PyFloat) →
    Except Unit (List (List PyFloat))
  | 0, _, _ => .error ()
  | fuel + 1, s, acc =>
    match lines.get? (s + 1) with
    | none => .error ()
    | some line =>
      if hasSub line dashes12 then .ok acc
      else
        match fracRow line with
        | none => .error ()
        | some row => fracLoop lines fuel (s + 1) (acc ++ [row])

/-- The values taken from one row of the stress block:
`float(row.split()[1])` and `float(row.split()[3])`. -/
def stressRowOf (row : Str) : Option (PyFloat × PyFloat) :=
  match (pysplit row).get? 1, (pysplit row).get? 3 with
  | some t1, some t3 =>
    (match pyfloat t1, pyfloat t3 with
     | some v1, some v3 => some (v1, v3)
     | _, _ => none)
  | _, _ => none

/-- Row `j` of the stress block (`lines[i + j + 3]`): its token 1 goes to
`stress[j]` and its token 3 to `stress[j + 3]`. -/
def stressRowVals (lines : List Str) (i j : Nat) : Option (PyFloat × PyFloat) :=
  match lines.get? (i + j + 3) with
  | none => none
  | some row => stressRowOf row

/-- The whole stress block: `stress = np.zeros([6])` filled from the three rows. -/
def stressBlock (lines : List Str) (i : Nat) : Option (List PyFloat) :=
  match stressRowVals lines i 0, stressRowVals lines i 1, stressRowVals lines i 2 with
  | some (a0, b0), some (a1, b1), some (a2, b2) => some [a0, a1, a2, b0, b1, b2]
  | _, _, _ => none

/-- The floats of the first three whitespace tokens of one row of the
`Final Cartesian lattice vectors` block (`IndexError`/`ValueError` give `none`;
extra tokens are ignored, as only `temp[0..2]` are read). -/
def latticeRowOf (row : Str) : Option (List PyFloat) :=
  match pysplit row with
  | t0 :: t1 :: t2 :: _ =>
    (match pyfloat t0, pyfloat t1, pyfloat t2 with
     | some v0, some v1, some v2 => some [v0, v1, v2]
     | _, _, _ => none)
  | _ => none

/-- Row `j - s` of the lattice-vectors block is read from `lines[j]`. -/
def latticeRow (lines : List Str) (j : Nat) : Option (List PyFloat) :=
  match lines.get? j with
  | none => none
  | some row => latticeRowOf row

/-- One iteration of `read`'s scan (`for i, line in enumerate(lines)`) at index
`i`.  `.error g` models an exception raised inside the iteration, leaving the
state as it was (every branch assigns to `self` only after all its fallible
work on locals). -/
def GULP.readStep (lines : List Str) (i : Nat) (line : Str) (g : GULP) :
    Except GULP GULP :=
  match reMatchEnergy line with
  | some tok =>
    (match pyfloat tok with
     | none => .error g
     | some v => .ok { g with energy := some v })
  | none =>
    if hasSub line (str "Job Finished") then .ok { g with optimized := true }
    else if hasSub line (str "Total CPU time") then
      match (pysplit line).getLast? with
      | none => .error g
      | some t =>
        (match pyfloat t with
         | none => .error g
         | some v => .ok { g with cputime := v })
    else if hasSub line (str "Final stress tensor components") then
      match stressBlock lines i with
      | none => .error g
      | some sv => .ok { g with stress := some sv }
    else if hasSub line (str "Final internal derivatives") then
      match forcesLoop lines (lines.length + 1) (i + 5) [] with
      | .error () => .error g
      | .ok rows => .ok { g with forces := some rows }
    else if hasSub line (str " Cycle: ") then
      match (pysplit line).get? 1 with
      | none => .error g
      | some t =>
        (match pyint t with
         | none => .error g
         | some n => .ok { g with iter := n })
    else if hasSub line (str "Final fractional coordinates of atoms") then
      match fracLoop lines (lines.length + 1) (i + 5) [] with
      | .error () => .error g
      | .ok rows => .ok { g with frac_coords := rows }
    else if hasSub line (str "Final Cartesian lattice vectors") then
      match latticeRow lines (i + 2), latticeRow lines (i + 3), latticeRow lines (i + 4) with
      | some r0, some r1, some r2 =>
        .ok { g with lattice := Lattice.from_matrix [r0, r1, r2] }
      | _, _, _ => .error g
    else .ok g

/-- The scan over all lines; `rest` is the remaining suffix and `i` the index of
its first line. -/
def GULP.readLoop (lines : List Str) : Nat → List Str → GULP → Except GULP GULP
  | _, [], g => .ok g
  | i, line :: rest, g =>
    match GULP.readStep lines i line g with
    | .error g' => .error g'
    | .ok g' => GULP.readLoop lines (i + 1) rest g'

/-- `GULP.read` on the report `lines` (the content of the output file): scan every
line inside `try`; afterwards `if np.isnan(self.energy)` — on `None` this raises
`TypeError`, caught by the bare `except` like any in-scan exception; on `nan` the
branch itself flags the failure.  Either way `error = True` and
`energy = 100000`. -/
def GULP.read (lines : List Str) (g : GULP) : GULP :=
  match GULP.readLoop lines 0 lines g with
  | .error g' => { g' with error := true, energy := some (.num 100000) }
  | .ok g' =>
    match g'.energy with
    | none => { g' with error := true, energy := some (.num 100000) }
    | some v =>
      if v.isnan then { g' with error := true, energy := some (.num 100000) }
      else g'

/-! ## `run`, `to_pyxtal`, `single_optimize`, `optimize` -/

/-- `GULP.run(clean)`: write the deck, execute, read the report, then clean
exactly when requested.  The report content `outLines` (what the executable left
in the output file) is a parameter of the model, as is `get_para`.  `none`
models the exception escaping from `write`. -/
def GULP.run (get_para : Lattice → Para) (outLines : List Str) (g : GULP)
    (clean : Bool) : Option (GULP × List Event) :=
  match g.writeChunks get_para with
  | none => none
  | some cs =>
    let g' := g.read outLines
    some (g', [.writeFile g.input cs] ++ g.execute ++ [.readFile g.output]
            ++ (if clean then g'.cleanEvents else []))

/-- Modelled from the spec: `GULP.to_pyxtal()` round-trips through pymatgen and
`pyxtal().from_seed`, which are outside this repository snapshot; per the spec
the calculator then "holds the optimized geometry", so the model packages the
calculator's current lattice, fractional coordinates and species. -/
def GULP.to_pyxtal (g : GULP) : Pyxtal :=
  ⟨⟨g.lattice.matrix, g.frac_coords, g.sites⟩⟩

/-- `single_optimize(struc, ff, opt, exe, path, label, clean)`.  The `exe`
argument is accepted but unused, exactly as in the source (the `GULP`
constructor call does not forward it, so the constructor defaults apply:
`steps=1000, exe='gulp', input='gulp.in', output='gulp.log', dump=None`).
`none` models an escaping exception (`NotImplementedError` from the
constructor, or a `write` failure). -/
def single_optimize (get_para : Lattice → Para) (outLines : List Str)
    (struc : StrucArg) (ff opt exe path label : Str) (clean : Bool) :
    Option (Option Pyxtal × Option PyFloat × PyFloat × Bool) :=
  match GULP.init struc label path ff opt 1000 (str "gulp") (str "gulp.in")
      (str "gulp.log") none with
  | .error _ => none
  | .ok cal =>
    match cal.run get_para outLines clean with
    | none => none
    | some (calc2, _) =>
      if calc2.error then some (none, some (.num 100000), .num 0, true)
      else some (some calc2.to_pyxtal, calc2.energy, calc2.cputime, calc2.error)

/-- The `for opt in optimizations` loop of `optimize`, carrying the stage index
(selecting that stage's report from `outs`), the threaded structure and
`time_total`.  An exhausted list with no iteration run means the final
`return struc, energy, time_total, False` reads the unbound local `energy`
(`UnboundLocalError`), modelled as `none`; with at least one iteration the
values of the last one are returned. -/
def optimizeLoop (get_para : Lattice → Para) (outs : Nat → List Str)
    (ff exe path label : Str) :
    List Str → Nat → StrucArg → PyFloat →
    Option (Option Pyxtal × Option PyFloat × PyFloat × Bool)
  | [], _, _, _ => none
  | opt :: rest, k, struc, tt =>
    match single_optimize get_para (outs k) struc ff opt exe path label true with
    | none => none
    | some (s, e, t, err) =>
      if err then some (none, some (.num 100000), .num 0, true)
      else
        match rest with
        | [] => some (s, e, tt.add t, false)
        | _ :: _ =>
          optimizeLoop get_para outs ff exe path label rest (k + 1)
            (match s with
             | some p => .pyx p
             | none => .other) (tt.add t)

/-- `optimize(struc, ff, optimizations, exe, path, label, clean)`.  The `clean`
argument is accepted but, as in the source, never forwarded to the per-stage
calls (which therefore clean up with their default `True`). -/
def optimize (get_para : Lattice → Para) (outs : Nat → List Str)
    (struc : StrucArg) (ff : Str) (optimizations : List Str)
    (exe path label : Str) (clean : Bool) :
    Option (Option Pyxtal × Option PyFloat × PyFloat × Bool) :=
  optimizeLoop get_para outs ff exe path label optimizations 0 struc (.num 0)

/-! ## Generic helper lemmas -/

theorem takeWhile_append_all {p : Char → Bool} :
    ∀ {a : Str}, (∀ c ∈ a, p c = true) → ∀ b : Str,
      (a ++ b).takeWhile p = a ++ b.takeWhile p := by
  intro a
  induction a with
  | nil => intro _ b; simp
  | cons c r ih =>
    intro h b
    have hc : p c = true := h c (List.mem_cons_self _ _)
    simp only [List.cons_append, List.takeWhile_cons, hc, if_true]
    rw [ih (fun x hx => h x (List.mem_cons_of_mem _ hx)) b]

theorem dropWhile_append_all {p : Char → Bool} :
    ∀ {a : Str}, (∀ c ∈ a, p c = true) → ∀ b : Str,
      (a ++ b).dropWhile p = b.dropWhile p := by
  intro a
  induction a with
  | nil => intro _ b; simp
  | cons c r ih =>
    intro h b
    have hc : p c = true := h c (List.mem_cons_self _ _)
    simp only [List.cons_append, List.dropWhile_cons, hc, if_true]
    exact ih (fun x hx => h x (List.mem_cons_of_mem _ hx)) b

theorem takeWhile_cons_false {p : Char → Bool} {c : Char} (h : p c = false) (s : Str) :
    (c :: s).takeWhile p = [] := by
  simp [List.takeWhile_cons, h]

theorem dropWhile_cons_false {p : Char → Bool} {c : Char} (h : p c = false) (s : Str) :
    (c :: s).dropWhile p = c :: s := by
  simp [List.dropWhile_cons, h]

theorem dropWhile_cons_true {p : Char → Bool} {c : Char} (h : p c = true) (s : Str) :
    (c :: s).dropWhile p = s.dropWhile p := by
  simp [List.dropWhile_cons, h]

theorem get?_append_right' {α : Type} :
    ∀ (l₁ l₂ : List α) (k : Nat), (l₁ ++ l₂).get? (l₁.length + k) = l₂.get? k := by
  intro l₁
  induction l₁ with
  | nil => intro l₂ k; simp
  | cons a r ih =>
    intro l₂ k
    simpa [List.length_cons, Nat.succ_add] using ih l₂ k

/-- Two characters with different `isDigit` status differ. -/
theorem ne_of_digit {c d : Char} (hc : c.isDigit = true) (hd : d.isDigit = false) : c ≠ d := by
  intro h
  rw [h, hd] at hc
  exact Bool.noConfusion hc

/-- The characters a numeric report token may contain: digits, decimal point,
signs, exponent letters. -/
def numChar (c : Char) : Bool :=
  c.isDigit || c = '.' || c = '-' || c = '+' || c = 'e' || c = 'E'

theorem ne_of_numChar {c d : Char} (hc : numChar c = true) (hd : numChar d = false) :
    c ≠ d := by
  intro h
  rw [h, hd] at hc
  exact Bool.noConfusion hc

theorem numChar_not_ws {c : Char} (hc : numChar c = true) : isWs c = false := by
  by_contra h
  have hw : isWs c = true := by
    cases hcase : isWs c
    · exact absurd hcase h
    · rfl
  have h6 : ((((c = ' ' ∨ c = '\t') ∨ c = '\n') ∨ c = '\r') ∨ c = '\x0c') ∨ c = '\x0b' := by
    simpa [isWs] using hw
  rcases h6 with ((((h1 | h1) | h1) | h1) | h1) | h1 <;> (subst h1; revert hc; decide)

/-! ## `pysplit` lemmas -/

/-- The remainder after a token: empty, or starting with whitespace. -/
def HeadWsOrNil : Str → Prop
  | [] => True
  | c :: _ => isWs c = true

theorem pysplit_nil : pysplit [] = [] := rfl

theorem pysplit_ws_cons {c : Char} (h : isWs c = true) (s : Str) :
    pysplit (c :: s) = pysplit s := by
  rw [pysplit, List.length_cons, pysplitF]
  simp [h, pysplit]

theorem pysplit_tok {tok : Str} (ht : tok ≠ []) (h : ∀ c ∈ tok, isWs c = false)
    {b : Str} (hb : HeadWsOrNil b) : pysplit (tok ++ b) = tok :: pysplit b := by
  match tok, ht with
  | c :: r, _ =>
    have hc : isWs c = false := h c (List.mem_cons_self _ _)
    have hr : ∀ x ∈ r, (fun d => !isWs d) x = true := by
      intro x hx
      simp [h x (List.mem_cons_of_mem _ hx)]
    rw [List.cons_append, pysplit, List.length_cons, pysplitF]
    simp only [hc, Bool.false_eq_true, if_false]
    have htake : (r ++ b).takeWhile (fun d => !isWs d) = r := by
      rw [takeWhile_append_all hr b]
      have hb0 : b.takeWhile (fun d => !isWs d) = [] := by
        match b, hb with
        | [], _ => rfl
        | d :: b', hb =>
          have hd : isWs d = true := hb
          exact takeWhile_cons_false (by simp [hd]) b'
      rw [hb0, List.append_nil]
    have hdrop : (r ++ b).dropWhile (fun d => !isWs d) = b := by
      rw [dropWhile_append_all hr b]
      match b, hb with
      | [], _ => rfl
      | d :: b', hb =>
        have hd : isWs d = true := hb
        exact dropWhile_cons_false (by simp [hd]) b'
    rw [htake, hdrop,
      pysplitF_congr ((r ++ b).length) b b.length (by simp) (Nat.le_refl _)]
    rfl

/-- `pysplit` of a single token. -/
theorem pysplit_tok_nil {tok : Str} (ht : tok ≠ []) (h : ∀ c ∈ tok, isWs c = false) :
    pysplit tok = [tok] := by
  have h2 : pysplit (tok ++ []) = tok :: pysplit [] := pysplit_tok ht h trivial
  simpa [pysplit_nil] using h2

/-! ## `hasSub` and `litMatch` lemmas -/

theorem isPrefixOf_mem {sub l : Str} (h : sub.isPrefixOf l = true) :
    ∀ c ∈ sub, c ∈ l := by
  induction sub generalizing l with
  | nil => intro c hc; cases hc
  | cons a r ih =>
    match l with
    | [] => simp [List.isPrefixOf] at h
    | b :: m =>
      simp only [List.isPrefixOf, Bool.and_eq_true, beq_iff_eq] at h
      intro c hc
      rcases List.mem_cons.mp hc with h1 | h1
      · subst h1; rw [h.1]; exact List.mem_cons_self _ _
      · exact List.mem_cons_of_mem _ (ih h.2 c h1)

theorem isPrefixOf_append_self (p r : Str) : p.isPrefixOf (p ++ r) = true := by
  induction p with
  | nil => simp [List.isPrefixOf]
  | cons a q ih => simp [List.isPrefixOf, ih]

theorem hasSub_of_isPrefixOf {l sub : Str} (h : sub.isPrefixOf l = true) :
    hasSub l sub = true := by
  match l with
  | [] => simpa [hasSub] using h
  | c :: r => simp [hasSub, h]

theorem hasSub_cons_of {l sub : Str} (c : Char) (h : hasSub l sub = true) :
    hasSub (c :: l) sub = true := by
  by_cases hp : sub.isPrefixOf (c :: l) = true
  · simp [hasSub, hp]
  · simp only [Bool.not_eq_true] at hp
    simp [hasSub, hp, h]

theorem hasSub_append_left {l sub : Str} (a : Str) (h : hasSub l sub = true) :
    hasSub (a ++ l) sub = true := by
  induction a with
  | nil => simpa using h
  | cons c r ih => exact hasSub_cons_of c ih

/-- A string containing a character that the line misses is not a substring. -/
theorem hasSub_false_of_missing {l sub : Str} {c : Char} (hc : c ∈ sub) (h : c ∉ l) :
    hasSub l sub = false := by
  induction l with
  | nil =>
    match sub, hc with
    | a :: r, _ => simp [hasSub, List.isPrefixOf]
  | cons b m ih =>
    have hp : sub.isPrefixOf (b :: m) = false := by
      cases hcase : sub.isPrefixOf (b :: m)
      · rfl
      · exact absurd (isPrefixOf_mem hcase c hc) h
    simp only [hasSub, hp, Bool.false_eq_true, if_false]
    exact ih (fun hm => h (List.mem_cons_of_mem _ hm))

theorem litMatch_cancel : ∀ (c p r : Str), litMatch (c ++ p) (c ++ r) = litMatch p r := by
  intro c
  induction c with
  | nil => intro p r; rfl
  | cons a q ih =>
    intro p r
    simp only [List.cons_append, litMatch, if_pos rfl]
    exact ih p r

theorem litMatch_self (p r : Str) : litMatch p (p ++ r) = some r := by
  have := litMatch_cancel p [] r
  simpa using this

theorem litMatch_mismatch {a b : Char} (h : a ≠ b) (p r : Str) :
    litMatch (a :: p) (b :: r) = none := by
  simp [litMatch, h]

/-- A successful literal match means every pattern character occurs in the string. -/
theorem litMatch_mem {p s r : Str} (h : litMatch p s = some r) : ∀ c ∈ p, c ∈ s := by
  induction p generalizing s with
  | nil => intro c hc; cases hc
  | cons a q ih =>
    match s with
    | [] => simp [litMatch] at h
    | b :: m =>
      by_cases hab : a = b
      · subst hab
        simp only [litMatch, if_pos rfl] at h
        intro c hc
        rcases List.mem_cons.mp hc with h1 | h1
        · subst h1; exact List.mem_cons_self _ _
        · exact List.mem_cons_of_mem _ (ih h c h1)
      · rw [litMatch_mismatch hab] at h
        exact Option.noConfusion h

/-- Characters survive `dropWhile`: membership in the result implies membership
in the original list. -/
theorem mem_of_mem_dropWhile {p : Char → Bool} {l : Str} {c : Char}
    (h : c ∈ l.dropWhile p) : c ∈ l := by
  induction l with
  | nil => simpa using h
  | cons a r ih =>
    rw [List.dropWhile_cons] at h
    by_cases ha : p a
    · simp only [ha, if_true] at h
      exact List.mem_cons_of_mem _ (ih h)
    · simp only [ha, Bool.false_eq_true, if_false] at h
      exact h

theorem not_mem_cons {c d : Char} {l : Str} (h1 : c ≠ d) (h2 : c ∉ l) : c ∉ d :: l := by
  intro hm
  rcases List.mem_cons.mp hm with h | h
  · exact h1 h
  · exact h2 h

theorem not_mem_append {c : Char} {a b : Str} (ha : c ∉ a) (hb : c ∉ b) : c ∉ a ++ b := by
  intro hm
  rcases List.mem_append.mp hm with h | h
  · exact ha h
  · exact hb h

theorem not_mem_of_digits {tok : Str} {d : Char} (htok : ∀ c ∈ tok, c.isDigit = true)
    (hd : d.isDigit = false) : d ∉ tok := by
  intro hm
  have := htok d hm
  rw [hd] at this
  exact Bool.noConfusion this

theorem not_mem_of_numChars {tok : Str} {d : Char} (htok : ∀ c ∈ tok, numChar c = true)
    (hd : numChar d = false) : d ∉ tok := by
  intro hm
  have := htok d hm
  rw [hd] at this
  exact Bool.noConfusion this

theorem headWsOrNil_cons {c : Char} {l : Str} (h : isWs c = true) :
    HeadWsOrNil (c :: l) := h

/-! ## Constructed report lines and how `read`'s primitives act on them -/

/-- A report line `" Total lattice energy = <tok> eV"`. -/
def energyLine (tok : Str) : Str :=
  ' ' :: (str "Total lattice energy" ++ (' ' :: ('=' :: (' ' :: (tok ++ (' ' :: str "eV"))))))

/-- A report line `" Total CPU time <tok>"`. -/
def cpuLine (tok : Str) : Str :=
  ' ' :: (str "Total CPU time" ++ (' ' :: tok))

/-- A report line `" Cycle: <tok> Energy"`. -/
def cycleLine (tok : Str) : Str :=
  ' ' :: (str "Cycle:" ++ (' ' :: (tok ++ (' ' :: str "Energy"))))

/-- A concrete `Job Finished` report line. -/
def jobLine : Str := str "  Job Finished at 10:54.46 25th February   2020"

theorem reMatchEnergy_none_of_noT {line : Str} (h : 'T' ∉ line) :
    reMatchEnergy line = none := by
  cases hm : litMatch (str "Total lattice energy") (line.dropWhile isWs) with
  | none => simp [reMatchEnergy, hm]
  | some s1 =>
    exact absurd (mem_of_mem_dropWhile (litMatch_mem hm 'T' (by decide))) h

theorem reMatchEnergy_energyLine {tok : Str} (ht : tok ≠ [])
    (hws : ∀ c ∈ tok, isWs c = false) :
    reMatchEnergy (energyLine tok) = some tok := by
  obtain ⟨c, r, rfl⟩ : ∃ c r, tok = c :: r := by
    match tok, ht with
    | c :: r, _ => exact ⟨c, r, rfl⟩
  have hc : isWs c = false := hws c (List.mem_cons_self _ _)
  have h1 : (energyLine (c :: r)).dropWhile isWs
      = str "Total lattice energy"
        ++ (' ' :: ('=' :: (' ' :: ((c :: r) ++ (' ' :: str "eV"))))) := by
    rw [energyLine, dropWhile_cons_true (by decide)]
    rw [show str "Total lattice energy"
          ++ (' ' :: ('=' :: (' ' :: ((c :: r) ++ (' ' :: str "eV")))))
        = 'T' :: (str "otal lattice energy"
          ++ (' ' :: ('=' :: (' ' :: ((c :: r) ++ (' ' :: str "eV")))))) from rfl]
    exact dropWhile_cons_false (by decide) _
  have h2 : List.dropWhile isWs (' ' :: ('=' :: (' ' :: ((c :: r) ++ (' ' :: str "eV")))))
      = '=' :: (' ' :: ((c :: r) ++ (' ' :: str "eV"))) := by
    rw [dropWhile_cons_true (by decide)]
    exact dropWhile_cons_false (by decide) _
  have h4 : (' ' :: ((c :: r) ++ (' ' :: str "eV"))).dropWhile isWs
      = (c :: r) ++ (' ' :: str "eV") := by
    rw [dropWhile_cons_true (by decide), List.cons_append,
      dropWhile_cons_false hc]
  have hall : ∀ x ∈ c :: r, (fun d => !isWs d) x = true := by
    intro x hx
    simp [hws x hx]
  have htake : ((c :: r) ++ (' ' :: str "eV")).takeWhile (fun d => !isWs d) = c :: r := by
    rw [takeWhile_append_all hall, takeWhile_cons_false (by decide), List.append_nil]
  have hdrop : ((c :: r) ++ (' ' :: str "eV")).dropWhile (fun d => !isWs d)
      = ' ' :: str "eV" := by
    rw [dropWhile_append_all hall, dropWhile_cons_false (by decide)]
  have htry : tryCaptures (c :: r).length (c :: r) (' ' :: str "eV") = some (c :: r) := by
    rw [show (c :: r).length = r.length + 1 from rfl, tryCaptures]
    have hdropn : (c :: r).drop (r.length + 1) = [] := by
      rw [List.drop_succ_cons, List.drop_length]
    rw [hdropn, List.nil_append]
    rw [show ((str "eV").isPrefixOf ((' ' :: str "eV").dropWhile isWs)) = true from by decide]
    simp only [if_true]
    rw [List.take_succ_cons, List.take_length]
  simp only [reMatchEnergy, h1, litMatch_self, h2, h4, htake, hdrop, List.isEmpty_cons,
    Bool.false_eq_true, if_false, htry]

theorem reMatchEnergy_cpuLine (tok : Str) : reMatchEnergy (cpuLine tok) = none := by
  have h1 : (cpuLine tok).dropWhile isWs = str "Total CPU time" ++ (' ' :: tok) := by
    rw [cpuLine, dropWhile_cons_true (by decide)]
    rw [show str "Total CPU time" ++ (' ' :: tok)
        = 'T' :: (str "otal CPU time" ++ (' ' :: tok)) from rfl]
    exact dropWhile_cons_false (by decide) _
  have h2 : litMatch (str "Total lattice energy") (str "Total CPU time" ++ (' ' :: tok))
      = none := by
    rw [show str "Total lattice energy" = str "Total " ++ str "lattice energy" from rfl]
    rw [show str "Total CPU time" ++ (' ' :: tok)
        = str "Total " ++ (str "CPU time" ++ (' ' :: tok)) from rfl]
    rw [litMatch_cancel]
    rw [show str "lattice energy" = 'l' :: str "attice energy" from rfl,
      show str "CPU time" ++ (' ' :: tok) = 'C' :: (str "PU time" ++ (' ' :: tok)) from rfl]
    exact litMatch_mismatch (by decide) _ _
  simp only [reMatchEnergy, h1, h2]

theorem pysplit_cpuLine {tok : Str} (ht : tok ≠ []) (hws : ∀ c ∈ tok, isWs c = false) :
    pysplit (cpuLine tok) = [str "Total", str "CPU", str "time", tok] := by
  rw [cpuLine, pysplit_ws_cons (by decide)]
  rw [show str "Total CPU time" ++ (' ' :: tok)
      = str "Total" ++ (' ' :: (str "CPU" ++ (' ' :: (str "time" ++ (' ' :: tok))))) from rfl]
  rw [pysplit_tok (by decide) (by decide) (headWsOrNil_cons (by decide))]
  rw [pysplit_ws_cons (by decide)]
  rw [pysplit_tok (by decide) (by decide) (headWsOrNil_cons (by decide))]
  rw [pysplit_ws_cons (by decide)]
  rw [pysplit_tok (by decide) (by decide) (headWsOrNil_cons (by decide))]
  rw [pysplit_ws_cons (by decide)]
  rw [pysplit_tok_nil ht hws]

theorem hasSub_cycleLine (tok : Str) : hasSub (cycleLine tok) (str " Cycle: ") = true := by
  rw [show cycleLine tok = str " Cycle: " ++ (tok ++ (' ' :: str "Energy")) from rfl]
  exact hasSub_of_isPrefixOf (isPrefixOf_append_self _ _)

theorem pysplit_cycleLine {tok : Str} (ht : tok ≠ []) (hws : ∀ c ∈ tok, isWs c = false) :
    pysplit (cycleLine tok) = [str "Cycle:", tok, str "Energy"] := by
  rw [cycleLine, pysplit_ws_cons (by decide)]
  rw [pysplit_tok (by decide) (by decide) (headWsOrNil_cons (by decide))]
  rw [pysplit_ws_cons (by decide)]
  rw [pysplit_tok ht hws (headWsOrNil_cons (by decide))]
  rw [pysplit_ws_cons (by decide)]
  rw [pysplit_tok_nil (by decide) (by decide)]

/-! ## Branch dispatch: `triggersAny` and frame lemmas -/

/-- A line fires some branch of `read`'s `if/elif` chain. -/
def triggersAny (line : Str) : Bool :=
  (reMatchEnergy line).isSome || hasSub line (str "Job Finished")
    || hasSub line (str "Total CPU time")
    || hasSub line (str "Final stress tensor components")
    || hasSub line (str "Final internal derivatives")
    || hasSub line (str " Cycle: ")
    || hasSub line (str "Final fractional coordinates of atoms")
    || hasSub line (str "Final Cartesian lattice vectors")

/-- A line firing no branch leaves the state untouched. -/
theorem readStep_frame {lines : List Str} {i : Nat} {line : Str} {g : GULP}
    (h : triggersAny line = false) : GULP.readStep lines i line g = .ok g := by
  rw [triggersAny] at h
  simp only [Bool.or_eq_false_iff] at h
  obtain ⟨⟨⟨⟨⟨⟨⟨h1, h2⟩, h3⟩, h4⟩, h5⟩, h6⟩, h7⟩, h8⟩ := h
  have h1' : reMatchEnergy line = none := by
    cases hm : reMatchEnergy line with
    | none => rfl
    | some s => rw [hm] at h1; exact Bool.noConfusion h1
  simp only [GULP.readStep, h1', h2, h3, h4, h5, h6, h7, h8, Bool.false_eq_true, if_false]

/-- A line whose characters avoid `T`, `J`, `F`, `C` fires no branch. -/
theorem triggersAny_false_of_missing {line : Str} (hT : 'T' ∉ line) (hJ : 'J' ∉ line)
    (hF : 'F' ∉ line) (hC : 'C' ∉ line) : triggersAny line = false := by
  rw [triggersAny, reMatchEnergy_none_of_noT hT]
  rw [hasSub_false_of_missing (show 'J' ∈ str "Job Finished" by decide) hJ]
  rw [hasSub_false_of_missing (show 'T' ∈ str "Total CPU time" by decide) hT]
  rw [hasSub_false_of_missing
    (show 'F' ∈ str "Final stress tensor components" by decide) hF]
  rw [hasSub_false_of_missing (show 'F' ∈ str "Final internal derivatives" by decide) hF]
  rw [hasSub_false_of_missing (show 'C' ∈ str " Cycle: " by decide) hC]
  rw [hasSub_false_of_missing
    (show 'F' ∈ str "Final fractional coordinates of atoms" by decide) hF]
  rw [hasSub_false_of_missing
    (show 'F' ∈ str "Final Cartesian lattice vectors" by decide) hF]
  rfl

theorem readLoop_cons (lines : List Str) (i : Nat) (line : Str) (rest : List Str)
    (g : GULP) :
    GULP.readLoop lines i (line :: rest) g
      = match GULP.readStep lines i line g with
        | .error g' => .error g'
        | .ok g' => GULP.readLoop lines (i + 1) rest g' := rfl

theorem readLoop_append (lines : List Str) (as bs : List Str) :
    ∀ (i : Nat) (g : GULP),
      GULP.readLoop lines i (as ++ bs) g
        = match GULP.readLoop lines i as g with
          | .error g' => .error g'
          | .ok g' => GULP.readLoop lines (i + as.length) bs g' := by
  induction as with
  | nil =>
    intro i g
    simp [GULP.readLoop]
  | cons a as ih =>
    intro i g
    rw [List.cons_append, readLoop_cons, readLoop_cons]
    cases hstep : GULP.readStep lines i a g with
    | error g' => rfl
    | ok g' =>
      simp only []
      rw [ih (i + 1) g']
      cases hrest : GULP.readLoop lines (i + 1) as g' with
      | error g2 => rfl
      | ok g2 =>
        simp only [List.length_cons]
        rw [show i + 1 + as.length = i + (as.length + 1) from by omega]

/-- A run of branch-free lines leaves the state untouched. -/
theorem readLoop_nontrigger {rest : List Str} (h : ∀ l ∈ rest, triggersAny l = false) :
    ∀ (lines : List Str) (i : Nat) (g : GULP), GULP.readLoop lines i rest g = .ok g := by
  induction rest with
  | nil => intro lines i g; rfl
  | cons a as ih =>
    intro lines i g
    rw [readLoop_cons, readStep_frame (h a (List.mem_cons_self _ _))]
    exact ih (fun l hl => h l (List.mem_cons_of_mem _ hl)) lines (i + 1) g

/-! ## The merged-column splitter: `minusIdx` and `splitForces` lemmas -/

theorem minusIdxAux_minus_cons (r : Str) (k : Nat) :
    minusIdxAux ('-' :: r) k = k :: minusIdxAux r (k + 1) := by
  rw [minusIdxAux, if_pos rfl]

theorem minusIdxAux_other_cons {c : Char} (hc : c ≠ '-') (r : Str) (k : Nat) :
    minusIdxAux (c :: r) k = minusIdxAux r (k + 1) := by
  rw [minusIdxAux, if_neg hc]

theorem minusIdxAux_append (a b : Str) :
    ∀ k, minusIdxAux (a ++ b) k = minusIdxAux a k ++ minusIdxAux b (k + a.length) := by
  induction a with
  | nil => intro k; simp [minusIdxAux]
  | cons c r ih =>
    intro k
    by_cases hc : c = '-'
    · subst hc
      rw [List.cons_append, minusIdxAux_minus_cons, minusIdxAux_minus_cons, ih (k + 1),
        List.cons_append, List.length_cons,
        show k + 1 + r.length = k + (r.length + 1) from by omega]
    · rw [List.cons_append, minusIdxAux_other_cons hc, minusIdxAux_other_cons hc,
        ih (k + 1), List.length_cons,
        show k + 1 + r.length = k + (r.length + 1) from by omega]

theorem minusIdxAux_eq_nil {a : Str} (h : ∀ c ∈ a, c ≠ '-') :
    ∀ k, minusIdxAux a k = [] := by
  induction a with
  | nil => intro k; rfl
  | cons c r ih =>
    intro k
    rw [minusIdxAux_other_cons (h c (List.mem_cons_self _ _))]
    exact ih (fun x hx => h x (List.mem_cons_of_mem _ hx)) (k + 1)

theorem minusIdxAux_nil_mem {a : Str} {k : Nat} (h : minusIdxAux a k = []) :
    ∀ c ∈ a, c ≠ '-' := by
  induction a generalizing k with
  | nil => intro c hc; cases hc
  | cons d r ih =>
    by_cases hd : d = '-'
    · subst hd
      rw [minusIdxAux_minus_cons] at h
      exact absurd h (by simp)
    · rw [minusIdxAux_other_cons hd] at h
      intro c hc
      rcases List.mem_cons.mp hc with h1 | h1
      · subst h1; exact hd
      · exact ih h c h1

/-- Interior minus positions of the merge of two interior-minus-free tokens,
the second starting with `-`. -/
theorem minusIdx_merge2 {t0 t1 : Str} (h0 : t0 ≠ []) (hm0 : minusIdx t0 = [])
    (hm1 : minusIdx t1 = []) (hh1 : t1.head? = some '-') :
    minusIdx (t0 ++ t1) = [t0.length] := by
  obtain ⟨c0, r0, rfl⟩ : ∃ c r, t0 = c :: r := by
    match t0, h0 with
    | c :: r, _ => exact ⟨c, r, rfl⟩
  obtain ⟨r1, rfl⟩ : ∃ r, t1 = '-' :: r := by
    match t1, hh1 with
    | c :: r, hh1 =>
      have hc : c = '-' := by simpa using hh1
      exact ⟨r, by rw [hc]⟩
  rw [minusIdx] at hm0 hm1
  have hr0 : ∀ c ∈ r0, c ≠ '-' := minusIdxAux_nil_mem hm0
  have hr1 : ∀ c ∈ r1, c ≠ '-' := minusIdxAux_nil_mem hm1
  rw [List.cons_append, minusIdx, minusIdxAux_append, minusIdxAux_eq_nil hr0,
    minusIdxAux_minus_cons, minusIdxAux_eq_nil hr1, List.nil_append, List.length_cons,
    show 1 + r0.length = r0.length + 1 from by omega]

/-- Interior minus positions of the merge of three interior-minus-free tokens,
the second and third starting with `-`. -/
theorem minusIdx_merge3 {t0 t1 t2 : Str} (h0 : t0 ≠ []) (hm0 : minusIdx t0 = [])
    (hm1 : minusIdx t1 = []) (hm2 : minusIdx t2 = []) (hh1 : t1.head? = some '-')
    (hh2 : t2.head? = some '-') :
    minusIdx (t0 ++ (t1 ++ t2)) = [t0.length, t0.length + t1.length] := by
  obtain ⟨c0, r0, rfl⟩ : ∃ c r, t0 = c :: r := by
    match t0, h0 with
    | c :: r, _ => exact ⟨c, r, rfl⟩
  obtain ⟨r1, rfl⟩ : ∃ r, t1 = '-' :: r := by
    match t1, hh1 with
    | c :: r, hh1 =>
      have hc : c = '-' := by simpa using hh1
      exact ⟨r, by rw [hc]⟩
  obtain ⟨r2, rfl⟩ : ∃ r, t2 = '-' :: r := by
    match t2, hh2 with
    | c :: r, hh2 =>
      have hc : c = '-' := by simpa using hh2
      exact ⟨r, by rw [hc]⟩
  rw [minusIdx] at hm0 hm1 hm2
  have hr0 : ∀ c ∈ r0, c ≠ '-' := minusIdxAux_nil_mem hm0
  have hr1 : ∀ c ∈ r1, c ≠ '-' := minusIdxAux_nil_mem hm1
  have hr2 : ∀ c ∈ r2, c ≠ '-' := minusIdxAux_nil_mem hm2
  rw [List.cons_append, minusIdx, minusIdxAux_append, minusIdxAux_eq_nil hr0,
    List.nil_append, List.cons_append, minusIdxAux_minus_cons, minusIdxAux_append,
    minusIdxAux_eq_nil hr1, List.nil_append, minusIdxAux_minus_cons,
    minusIdxAux_eq_nil hr2]
  simp only [List.length_cons]
  rw [show 1 + r0.length = r0.length + 1 from by omega]
  rw [show r0.length + 1 + 1 + r1.length = r0.length + 1 + (r1.length + 1) from by omega]

theorem take_len_append (a b : Str) : (a ++ b).take a.length = a := by
  induction a with
  | nil => simp
  | cons c r ih => simp [ih]

theorem drop_len_append (a b : Str) : (a ++ b).drop a.length = b := by
  induction a with
  | nil => simp
  | cons c r ih => simp [ih]

theorem take_len_add_append (a b : Str) (n : Nat) :
    (a ++ b).take (a.length + n) = a ++ b.take n := by
  induction a with
  | nil => simp
  | cons c r ih => simpa [Nat.succ_add] using ih

theorem drop_len_add_append (a b : Str) (n : Nat) :
    (a ++ b).drop (a.length + n) = b.drop n := by
  induction a with
  | nil => simp
  | cons c r ih => simpa [Nat.succ_add] using ih

/-- Unmerged triple (no interior minus in the first two tokens): unchanged. -/
theorem splitForces_plain {t0 t1 : Str} (hm0 : minusIdx t0 = []) (hm1 : minusIdx t1 = [])
    (t2 : Str) : splitForces t0 t1 t2 = (t0, t1, t2) := by
  rw [splitForces]
  simp only [hm0, hm1]

/-- First two columns merged: the single interior minus of `t0 ++ t1` splits them,
shifting the old second token into the third slot. -/
theorem splitForces_m01 {t0 t1 : Str} (h0 : t0 ≠ []) (hm0 : minusIdx t0 = [])
    (hm1 : minusIdx t1 = []) (hh1 : t1.head? = some '-') (g1 g2 : Str) :
    splitForces (t0 ++ t1) g1 g2 = (t0, t1, g1) := by
  rw [splitForces]
  simp only [minusIdx_merge2 h0 hm0 hm1 hh1, drop_len_append, take_len_append, hm1]

/-- Last two columns merged: the single interior minus of `t1 ++ t2` splits them. -/
theorem splitForces_m12 {t0 t1 t2 : Str} (hm0 : minusIdx t0 = []) (h1 : t1 ≠ [])
    (hm1 : minusIdx t1 = []) (hm2 : minusIdx t2 = []) (hh2 : t2.head? = some '-')
    (g2 : Str) : splitForces t0 (t1 ++ t2) g2 = (t0, t1, t2) := by
  rw [splitForces]
  simp only [hm0, minusIdx_merge2 h1 hm1 hm2 hh2, take_len_append, drop_len_append]

/-- All three columns merged: the two interior minuses of `t0 ++ t1 ++ t2`
reconstruct all three columns. -/
theorem splitForces_m012 {t0 t1 t2 : Str} (h0 : t0 ≠ []) (hm0 : minusIdx t0 = [])
    (hm1 : minusIdx t1 = []) (hm2 : minusIdx t2 = []) (hh1 : t1.head? = some '-')
    (hh2 : t2.head? = some '-') (g1 g2 : Str) :
    splitForces (t0 ++ (t1 ++ t2)) g1 g2 = (t0, t1, t2) := by
  rw [splitForces]
  simp only [minusIdx_merge3 h0 hm0 hm1 hm2 hh1 hh2]
  rw [take_len_append, take_len_add_append, take_len_append, drop_len_append,
    drop_len_add_append, drop_len_append]

/-! ## Table rows of the constructed reports -/

/-- Token predicates of the constructed reports. -/
def numTok (t : Str) : Prop := t ≠ [] ∧ ∀ c ∈ t, numChar c = true

def digitTok (t : Str) : Prop := t ≠ [] ∧ ∀ c ∈ t, c.isDigit = true

instance (t : Str) : Decidable (numTok t) := by unfold numTok; infer_instance

instance (t : Str) : Decidable (digitTok t) := by unfold digitTok; infer_instance

theorem numTok_not_ws {t : Str} (h : numTok t) : ∀ c ∈ t, isWs c = false :=
  fun c hc => numChar_not_ws (h.2 c hc)

theorem digitTok_numTok {t : Str} (h : digitTok t) : numTok t :=
  ⟨h.1, fun c hc => by simp [numChar, h.2 c hc]⟩

theorem numTok_append {a b : Str} (ha : numTok a) (hb : numTok b) : numTok (a ++ b) := by
  refine ⟨by simp [ha.1], ?_⟩
  intro c hc
  rcases List.mem_append.mp hc with h | h
  · exact ha.2 c h
  · exact hb.2 c h

/-- One row of the stress block: `" <lab1> <t1> <lab2> <t2>"`. -/
def stressLine (lab1 t1 lab2 t2 : Str) : Str :=
  ' ' :: (lab1 ++ (' ' :: (t1 ++ (' ' :: (lab2 ++ (' ' :: t2))))))

theorem pysplit_stressLine {lab1 t1 lab2 t2 : Str}
    (h1 : lab1 ≠ []) (hw1 : ∀ c ∈ lab1, isWs c = false)
    (h2 : t1 ≠ []) (hw2 : ∀ c ∈ t1, isWs c = false)
    (h3 : lab2 ≠ []) (hw3 : ∀ c ∈ lab2, isWs c = false)
    (h4 : t2 ≠ []) (hw4 : ∀ c ∈ t2, isWs c = false) :
    pysplit (stressLine lab1 t1 lab2 t2) = [lab1, t1, lab2, t2] := by
  rw [stressLine, pysplit_ws_cons (by decide)]
  rw [pysplit_tok h1 hw1 (headWsOrNil_cons (by decide))]
  rw [pysplit_ws_cons (by decide)]
  rw [pysplit_tok h2 hw2 (headWsOrNil_cons (by decide))]
  rw [pysplit_ws_cons (by decide)]
  rw [pysplit_tok h3 hw3 (headWsOrNil_cons (by decide))]
  rw [pysplit_ws_cons (by decide)]
  rw [pysplit_tok_nil h4 hw4]

theorem stressRowOf_stressLine {lab1 t1 lab2 t2 : Str} {v1 v2 : PyFloat}
    (hl1 : lab1 ≠ []) (hwl1 : ∀ c ∈ lab1, isWs c = false)
    (hl2 : lab2 ≠ []) (hwl2 : ∀ c ∈ lab2, isWs c = false)
    (ht1 : numTok t1) (ht2 : numTok t2)
    (hv1 : pyfloat t1 = some v1) (hv2 : pyfloat t2 = some v2) :
    stressRowOf (stressLine lab1 t1 lab2 t2) = some (v1, v2) := by
  rw [stressRowOf,
    pysplit_stressLine hl1 hwl1 ht1.1 (numTok_not_ws ht1) hl2 hwl2 ht2.1 (numTok_not_ws ht2)]
  simp only [List.get?, hv1, hv2]

/-- One row of the lattice-vectors block: `" <t0> <t1> <t2>"`. -/
def vecLine (t0 t1 t2 : Str) : Str :=
  ' ' :: (t0 ++ (' ' :: (t1 ++ (' ' :: t2))))

theorem pysplit_vecLine {t0 t1 t2 : Str} (h0 : numTok t0) (h1 : numTok t1)
    (h2 : numTok t2) : pysplit (vecLine t0 t1 t2) = [t0, t1, t2] := by
  rw [vecLine, pysplit_ws_cons (by decide)]
  rw [pysplit_tok h0.1 (numTok_not_ws h0) (headWsOrNil_cons (by decide))]
  rw [pysplit_ws_cons (by decide)]
  rw [pysplit_tok h1.1 (numTok_not_ws h1) (headWsOrNil_cons (by decide))]
  rw [pysplit_ws_cons (by decide)]
  rw [pysplit_tok_nil h2.1 (numTok_not_ws h2)]

theorem latticeRowOf_vecLine {t0 t1 t2 : Str} {v0 v1 v2 : PyFloat}
    (h0 : numTok t0) (h1 : numTok t1) (h2 : numTok t2)
    (hv0 : pyfloat t0 = some v0) (hv1 : pyfloat t1 = some v1)
    (hv2 : pyfloat t2 = some v2) :
    latticeRowOf (vecLine t0 t1 t2) = some [v0, v1, v2] := by
  rw [latticeRowOf, pysplit_vecLine h0 h1 h2]
  simp only [hv0, hv1, hv2]

/-- One row of the fractional-coordinates table:
`" <idx> Si c <t0> <t1> <t2>"`. -/
def fracRowLine (idx t0 t1 t2 : Str) : Str :=
  ' ' :: (idx ++ (' ' :: (str "Si" ++ (' ' :: (str "c"
    ++ (' ' :: (t0 ++ (' ' :: (t1 ++ (' ' :: t2))))))))))

theorem pysplit_fracRowLine {idx t0 t1 t2 : Str} (hi : digitTok idx) (h0 : numTok t0)
    (h1 : numTok t1) (h2 : numTok t2) :
    pysplit (fracRowLine idx t0 t1 t2) = [idx, str "Si", str "c", t0, t1, t2] := by
  have hi' := digitTok_numTok hi
  rw [fracRowLine, pysplit_ws_cons (by decide)]
  rw [pysplit_tok hi'.1 (numTok_not_ws hi') (headWsOrNil_cons (by decide))]
  rw [pysplit_ws_cons (by decide)]
  rw [pysplit_tok (by decide) (by decide) (headWsOrNil_cons (by decide))]
  rw [pysplit_ws_cons (by decide)]
  rw [pysplit_tok (by decide) (by decide) (headWsOrNil_cons (by decide))]
  rw [pysplit_ws_cons (by decide)]
  rw [pysplit_tok h0.1 (numTok_not_ws h0) (headWsOrNil_cons (by decide))]
  rw [pysplit_ws_cons (by decide)]
  rw [pysplit_tok h1.1 (numTok_not_ws h1) (headWsOrNil_cons (by decide))]
  rw [pysplit_ws_cons (by decide)]
  rw [pysplit_tok_nil h2.1 (numTok_not_ws h2)]

theorem fracRow_fracRowLine {idx t0 t1 t2 : Str} {v0 v1 v2 : PyFloat}
    (hi : digitTok idx) (h0 : numTok t0) (h1 : numTok t1) (h2 : numTok t2)
    (hv0 : pyfloat t0 = some v0) (hv1 : pyfloat t1 = some v1)
    (hv2 : pyfloat t2 = some v2) :
    fracRow (fracRowLine idx t0 t1 t2) = some [v0, v1, v2] := by
  rw [fracRow, pysplit_fracRowLine hi h0 h1 h2]
  simp only [List.drop, List.take, List.mapM_cons, List.mapM_nil, hv0, hv1, hv2,
    Option.pure_def, Option.bind_eq_bind, Option.some_bind, List.get?]

/-- A force-table atom line with three data tokens: `" <idx> Si c <a> <b> <c>"`. -/
def forceLine3 (idx a b c : Str) : Str :=
  ' ' :: (idx ++ (' ' :: (str "Si" ++ (' ' :: (str "c"
    ++ (' ' :: (a ++ (' ' :: (b ++ (' ' :: c))))))))))

/-- A force-table atom line with two data tokens (one negative-sign collision). -/
def forceLine2 (idx a b : Str) : Str :=
  ' ' :: (idx ++ (' ' :: (str "Si" ++ (' ' :: (str "c" ++ (' ' :: (a ++ (' ' :: b))))))))

/-- A force-table atom line with one data token (two negative-sign collisions). -/
def forceLine1 (idx a : Str) : Str :=
  ' ' :: (idx ++ (' ' :: (str "Si" ++ (' ' :: (str "c" ++ (' ' :: a))))))

theorem pysplit_forceLine3 {idx a b c : Str} (hi : digitTok idx) (ha : numTok a)
    (hb : numTok b) (hc : numTok c) :
    pysplit (forceLine3 idx a b c) = [idx, str "Si", str "c", a, b, c] := by
  have hi' := digitTok_numTok hi
  rw [forceLine3, pysplit_ws_cons (by decide)]
  rw [pysplit_tok hi'.1 (numTok_not_ws hi') (headWsOrNil_cons (by decide))]
  rw [pysplit_ws_cons (by decide)]
  rw [pysplit_tok (by decide) (by decide) (headWsOrNil_cons (by decide))]
  rw [pysplit_ws_cons (by decide)]
  rw [pysplit_tok (by decide) (by decide) (headWsOrNil_cons (by decide))]
  rw [pysplit_ws_cons (by decide)]
  rw [pysplit_tok ha.1 (numTok_not_ws ha) (headWsOrNil_cons (by decide))]
  rw [pysplit_ws_cons (by decide)]
  rw [pysplit_tok hb.1 (numTok_not_ws hb) (headWsOrNil_cons (by decide))]
  rw [pysplit_ws_cons (by decide)]
  rw [pysplit_tok_nil hc.1 (numTok_not_ws hc)]

theorem pysplit_forceLine2 {idx a b : Str} (hi : digitTok idx) (ha : numTok a)
    (hb : numTok b) :
    pysplit (forceLine2 idx a b) = [idx, str "Si", str "c", a, b] := by
  have hi' := digitTok_numTok hi
  rw [forceLine2, pysplit_ws_cons (by decide)]
  rw [pysplit_tok hi'.1 (numTok_not_ws hi') (headWsOrNil_cons (by decide))]
  rw [pysplit_ws_cons (by decide)]
  rw [pysplit_tok (by decide) (by decide) (headWsOrNil_cons (by decide))]
  rw [pysplit_ws_cons (by decide)]
  rw [pysplit_tok (by decide) (by decide) (headWsOrNil_cons (by decide))]
  rw [pysplit_ws_cons (by decide)]
  rw [pysplit_tok ha.1 (numTok_not_ws ha) (headWsOrNil_cons (by decide))]
  rw [pysplit_ws_cons (by decide)]
  rw [pysplit_tok_nil hb.1 (numTok_not_ws hb)]

theorem pysplit_forceLine1 {idx a : Str} (hi : digitTok idx) (ha : numTok a) :
    pysplit (forceLine1 idx a) = [idx, str "Si", str "c", a] := by
  have hi' := digitTok_numTok hi
  rw [forceLine1, pysplit_ws_cons (by decide)]
  rw [pysplit_tok hi'.1 (numTok_not_ws hi') (headWsOrNil_cons (by decide))]
  rw [pysplit_ws_cons (by decide)]
  rw [pysplit_tok (by decide) (by decide) (headWsOrNil_cons (by decide))]
  rw [pysplit_ws_cons (by decide)]
  rw [pysplit_tok (by decide) (by decide) (headWsOrNil_cons (by decide))]
  rw [pysplit_ws_cons (by decide)]
  rw [pysplit_tok_nil ha.1 (numTok_not_ws ha)]

/-- A force-table atom row of the constructed reports: the three source
components `t0, t1, t2` rendered either unmerged or with the sign of a negative
component gluing it to the previous column, as in real GULP logs. -/
inductive MRow where
  | plain (idx t0 t1 t2 : Str)
  | merge01 (idx t0 t1 t2 : Str)
  | merge12 (idx t0 t1 t2 : Str)
  | merge012 (idx t0 t1 t2 : Str)
deriving DecidableEq

def MRow.line : MRow → Str
  | .plain i a b c => forceLine3 i a b c
  | .merge01 i a b c => forceLine2 i (a ++ b) c
  | .merge12 i a b c => forceLine2 i a (b ++ c)
  | .merge012 i a b c => forceLine1 i (a ++ (b ++ c))

def MRow.tok0 : MRow → Str
  | .plain _ a _ _ | .merge01 _ a _ _ | .merge12 _ a _ _ | .merge012 _ a _ _ => a

def MRow.tok1 : MRow → Str
  | .plain _ _ b _ | .merge01 _ _ b _ | .merge12 _ _ b _ | .merge012 _ _ b _ => b

def MRow.tok2 : MRow → Str
  | .plain _ _ _ c | .merge01 _ _ _ c | .merge12 _ _ _ c | .merge012 _ _ _ c => c

/-- Well-formedness of a constructed force row: index and components are proper
tokens, components carry no interior minus sign, and a merged component indeed
begins with the minus sign that caused the collision. -/
def MRow.Ok : MRow → Prop
  | .plain i a b c => digitTok i ∧ numTok a ∧ numTok b ∧ numTok c
      ∧ minusIdx a = [] ∧ minusIdx b = []
  | .merge01 i a b c => digitTok i ∧ numTok a ∧ numTok b ∧ numTok c
      ∧ minusIdx a = [] ∧ minusIdx b = [] ∧ b.head? = some '-'
  | .merge12 i a b c => digitTok i ∧ numTok a ∧ numTok b ∧ numTok c
      ∧ minusIdx a = [] ∧ minusIdx b = [] ∧ minusIdx c = [] ∧ c.head? = some '-'
  | .merge012 i a b c => digitTok i ∧ numTok a ∧ numTok b ∧ numTok c
      ∧ minusIdx a = [] ∧ minusIdx b = [] ∧ minusIdx c = []
      ∧ b.head? = some '-' ∧ c.head? = some '-'

instance (r : MRow) : Decidable r.Ok := by
  cases r <;> (unfold MRow.Ok; infer_instance)

/-- A well-formed force row parses to its three components, each negated and
converted by `eV / Ang`, whatever the merge pattern. -/
theorem forceRow_MRow {r : MRow} (h : r.Ok) {v0 v1 v2 : PyFloat}
    (h0 : pyfloat r.tok0 = some v0) (h1 : pyfloat r.tok1 = some v1)
    (h2 : pyfloat r.tok2 = some v2) :
    forceRow r.line = some [(v0.neg.mulQ eV).divQ Ang, (v1.neg.mulQ eV).divQ Ang,
      (v2.neg.mulQ eV).divQ Ang] := by
  cases r with
  | plain i a b c =>
    obtain ⟨hi, ha, hb, hc, hma, hmb⟩ := h
    rw [MRow.line, forceRow, pysplit_forceLine3 hi ha hb hc]
    rw [show forceTriple [i, str "Si", str "c", a, b, c] = (a, b, c) from rfl]
    rw [splitForces_plain hma hmb]
    simp only [MRow.tok0] at h0
    simp only [MRow.tok1] at h1
    simp only [MRow.tok2] at h2
    simp only [convForce, h0, h1, h2, Option.map_some']
  | merge01 i a b c =>
    obtain ⟨hi, ha, hb, hc, hma, hmb, hhb⟩ := h
    rw [MRow.line, forceRow, pysplit_forceLine2 hi (numTok_append ha hb) hc]
    rw [show forceTriple [i, str "Si", str "c", a ++ b, c] = (a ++ b, c, [' ']) from rfl]
    rw [splitForces_m01 ha.1 hma hmb hhb]
    simp only [MRow.tok0] at h0
    simp only [MRow.tok1] at h1
    simp only [MRow.tok2] at h2
    simp only [convForce, h0, h1, h2, Option.map_some']
  | merge12 i a b c =>
    obtain ⟨hi, ha, hb, hc, hma, hmb, hmc, hhc⟩ := h
    rw [MRow.line, forceRow, pysplit_forceLine2 hi ha (numTok_append hb hc)]
    rw [show forceTriple [i, str "Si", str "c", a, b ++ c] = (a, b ++ c, [' ']) from rfl]
    rw [splitForces_m12 hma hb.1 hmb hmc hhc]
    simp only [MRow.tok0] at h0
    simp only [MRow.tok1] at h1
    simp only [MRow.tok2] at h2
    simp only [convForce, h0, h1, h2, Option.map_some']
  | merge012 i a b c =>
    obtain ⟨hi, ha, hb, hc, hma, hmb, hmc, hhb, hhc⟩ := h
    rw [MRow.line, forceRow,
      pysplit_forceLine1 hi (numTok_append ha (numTok_append hb hc))]
    rw [show forceTriple [i, str "Si", str "c", a ++ (b ++ c)]
        = (a ++ (b ++ c), [' '], [' ']) from rfl]
    rw [splitForces_m012 ha.1 hma hmb hmc hhb hhc]
    simp only [MRow.tok0] at h0
    simp only [MRow.tok1] at h1
    simp only [MRow.tok2] at h2
    simp only [convForce, h0, h1, h2, Option.map_some']

/-! ## Headers and filler lines of the constructed reports -/

def stressHdr : Str := str "  Final stress tensor components (GPa)"

def derivHdr : Str := str "  Final internal derivatives :"

def fracHdr : Str := str "  Final fractional coordinates of atoms :"

def cartHdr : Str := str "  Final Cartesian lattice vectors (Angstroms) :"

def dashLine : Str :=
  str "--------------------------------------------------------------------------------"

def blankLine : Str := []

def colHdrA : Str := str "   No.  Atomic        x           y          z"

def colHdrB : Str := str "        Label       (Frac)      (Frac)     (Frac)"

/-! ## Table blocks inside a report and the loop lemmas -/

/-- The forces table found in `lines` from index `s` on: parsed rows, then a
dashed terminator. -/
def ForcesBlockAt (lines : List Str) : Nat → List (Str × List PyFloat) → Prop
  | s, [] => ∃ term, lines.get? s = some term ∧ hasSub term dashes12 = true
  | s, rv :: rest => lines.get? s = some rv.1 ∧ hasSub rv.1 dashes12 = false
      ∧ forceRow rv.1 = some rv.2 ∧ ForcesBlockAt lines (s + 1) rest

/-- The fractional-coordinates table found in `lines` from index `s` on. -/
def FracBlockAt (lines : List Str) : Nat → List (Str × List PyFloat) → Prop
  | s, [] => ∃ term, lines.get? s = some term ∧ hasSub term dashes12 = true
  | s, rv :: rest => lines.get? s = some rv.1 ∧ hasSub rv.1 dashes12 = false
      ∧ fracRow rv.1 = some rv.2 ∧ FracBlockAt lines (s + 1) rest

theorem ForcesBlockAt_lt {lines : List Str} :
    ∀ {rows : List (Str × List PyFloat)} {s : Nat}, ForcesBlockAt lines s rows →
      s + rows.length < lines.length := by
  intro rows
  induction rows with
  | nil =>
    intro s hb
    obtain ⟨term, hterm, _⟩ := hb
    have := List.get?_eq_some.mp hterm
    obtain ⟨h, _⟩ := this
    simpa using h
  | cons rv rest ih =>
    intro s hb
    obtain ⟨_, _, _, hrest⟩ := hb
    have := ih hrest
    simp only [List.length_cons]
    omega

theorem FracBlockAt_lt {lines : List Str} :
    ∀ {rows : List (Str × List PyFloat)} {s : Nat}, FracBlockAt lines s rows →
      s + rows.length < lines.length := by
  intro rows
  induction rows with
  | nil =>
    intro s hb
    obtain ⟨term, hterm, _⟩ := hb
    have := List.get?_eq_some.mp hterm
    obtain ⟨h, _⟩ := this
    simpa using h
  | cons rv rest ih =>
    intro s hb
    obtain ⟨_, _, _, hrest⟩ := hb
    have := ih hrest
    simp only [List.length_cons]
    omega

theorem forcesLoop_spec (lines : List Str) :
    ∀ (rows : List (Str × List PyFloat)) (s fuel : Nat) (acc : List (List PyFloat)),
      ForcesBlockAt lines (s + 1) rows → rows.length < fuel →
      forcesLoop lines fuel s acc = .ok (acc ++ rows.map Prod.snd) := by
  intro rows
  induction rows with
  | nil =>
    intro s fuel acc hb hf
    obtain ⟨term, hterm, hdash⟩ := hb
    match fuel, hf with
    | f + 1, _ =>
      rw [forcesLoop, hterm]
      simp [hdash]
  | cons rv rest ih =>
    intro s fuel acc hb hf
    obtain ⟨hline, hnd, hrow, hrest⟩ := hb
    match fuel, hf with
    | f + 1, hf =>
      rw [forcesLoop, hline]
      simp only [hnd, Bool.false_eq_true, if_false, hrow]
      have hf' : rest.length < f := by
        simp only [List.length_cons] at hf
        omega
      rw [ih (s + 1) f (acc ++ [rv.2]) hrest hf']
      simp [List.append_assoc]

theorem fracLoop_spec (lines : List Str) :
    ∀ (rows : List (Str × List PyFloat)) (s fuel : Nat) (acc : List (List PyFloat)),
      FracBlockAt lines (s + 1) rows → rows.length < fuel →
      fracLoop lines fuel s acc = .ok (acc ++ rows.map Prod.snd) := by
  intro rows
  induction rows with
  | nil =>
    intro s fuel acc hb hf
    obtain ⟨term, hterm, hdash⟩ := hb
    match fuel, hf with
    | f + 1, _ =>
      rw [fracLoop, hterm]
      simp [hdash]
  | cons rv rest ih =>
    intro s fuel acc hb hf
    obtain ⟨hline, hnd, hrow, hrest⟩ := hb
    match fuel, hf with
    | f + 1, hf =>
      rw [fracLoop, hline]
      simp only [hnd, Bool.false_eq_true, if_false, hrow]
      have hf' : rest.length < f := by
        simp only [List.length_cons] at hf
        omega
      rw [ih (s + 1) f (acc ++ [rv.2]) hrest hf']
      simp [List.append_assoc]

/-! ## `readStep` dispatch lemmas for the constructed lines -/

theorem readStep_energyLine (lines : List Str) (i : Nat) (g : GULP) {tok : Str}
    {v : PyFloat} (ht : numTok tok) (hv : pyfloat tok = some v) :
    GULP.readStep lines i (energyLine tok) g = .ok { g with energy := some v } := by
  simp only [GULP.readStep, reMatchEnergy_energyLine ht.1 (numTok_not_ws ht), hv]

theorem readStep_jobLine (lines : List Str) (i : Nat) (g : GULP) :
    GULP.readStep lines i jobLine g = .ok { g with optimized := true } := by
  simp only [GULP.readStep,
    show reMatchEnergy jobLine = none from by decide,
    show hasSub jobLine (str "Job Finished") = true from by decide, if_true]

theorem readStep_cpuLine (lines : List Str) (i : Nat) (g : GULP) {tok : Str}
    {v : PyFloat} (ht : numTok tok) (hv : pyfloat tok = some v) :
    GULP.readStep lines i (cpuLine tok) g = .ok { g with cputime := v } := by
  have hJ : 'J' ∉ cpuLine tok := by
    rw [cpuLine]
    refine not_mem_cons (by decide) (not_mem_append (by decide)
      (not_mem_cons (by decide) ?_))
    exact not_mem_of_numChars ht.2 (by decide)
  have hcpu : hasSub (cpuLine tok) (str "Total CPU time") = true := by
    rw [cpuLine]
    exact hasSub_cons_of _ (hasSub_of_isPrefixOf (isPrefixOf_append_self _ _))
  simp only [GULP.readStep, reMatchEnergy_cpuLine,
    hasSub_false_of_missing (show 'J' ∈ str "Job Finished" by decide) hJ,
    Bool.false_eq_true, if_false, hcpu, if_true,
    pysplit_cpuLine ht.1 (numTok_not_ws ht),
    show ([str "Total", str "CPU", str "time", tok]).getLast? = some tok from rfl, hv]

theorem readStep_cycleLine (lines : List Str) (i : Nat) (g : GULP) {tok : Str}
    {n : ℤ} (ht : digitTok tok) (hn : pyint tok = some n) :
    GULP.readStep lines i (cycleLine tok) g = .ok { g with iter := n } := by
  have ht' := digitTok_numTok ht
  have hT : 'T' ∉ cycleLine tok := by
    rw [cycleLine]
    exact not_mem_cons (by decide) (not_mem_append (by decide) (not_mem_cons (by decide)
      (not_mem_append (not_mem_of_digits ht.2 (by decide))
        (not_mem_cons (by decide) (by decide)))))
  have hJ : 'J' ∉ cycleLine tok := by
    rw [cycleLine]
    exact not_mem_cons (by decide) (not_mem_append (by decide) (not_mem_cons (by decide)
      (not_mem_append (not_mem_of_digits ht.2 (by decide))
        (not_mem_cons (by decide) (by decide)))))
  have hF : 'F' ∉ cycleLine tok := by
    rw [cycleLine]
    exact not_mem_cons (by decide) (not_mem_append (by decide) (not_mem_cons (by decide)
      (not_mem_append (not_mem_of_digits ht.2 (by decide))
        (not_mem_cons (by decide) (by decide)))))
  simp only [GULP.readStep, reMatchEnergy_none_of_noT hT,
    hasSub_false_of_missing (show 'J' ∈ str "Job Finished" by decide) hJ,
    hasSub_false_of_missing (show 'T' ∈ str "Total CPU time" by decide) hT,
    hasSub_false_of_missing
      (show 'F' ∈ str "Final stress tensor components" by decide) hF,
    hasSub_false_of_missing (show 'F' ∈ str "Final internal derivatives" by decide) hF,
    Bool.false_eq_true, if_false, hasSub_cycleLine, if_true,
    pysplit_cycleLine ht'.1 (numTok_not_ws ht'),
    show ([str "Cycle:", tok, str "Energy"]).get? 1 = some tok from rfl, hn]

theorem readStep_stressHdr (lines : List Str) (i : Nat) (g : GULP)
    {sv : List PyFloat} (hsb : stressBlock lines i = some sv) :
    GULP.readStep lines i stressHdr g = .ok { g with stress := some sv } := by
  simp only [GULP.readStep,
    show reMatchEnergy stressHdr = none from by decide,
    show hasSub stressHdr (str "Job Finished") = false from by decide,
    show hasSub stressHdr (str "Total CPU time") = false from by decide,
    show hasSub stressHdr (str "Final stress tensor components") = true from by decide,
    Bool.false_eq_true, if_false, if_true, hsb]

theorem readStep_derivHdr (lines : List Str) (i : Nat) (g : GULP)
    {rows : List (Str × List PyFloat)} (hb : ForcesBlockAt lines (i + 6) rows) :
    GULP.readStep lines i derivHdr g
      = .ok { g with forces := some (rows.map Prod.snd) } := by
  have hb' : ForcesBlockAt lines (i + 5 + 1) rows := by
    rw [show i + 5 + 1 = i + 6 from by omega]
    exact hb
  have hlt : i + 5 + 1 + rows.length < lines.length := ForcesBlockAt_lt hb'
  have hloop : forcesLoop lines (lines.length + 1) (i + 5) []
      = .ok ([] ++ rows.map Prod.snd) :=
    forcesLoop_spec lines rows (i + 5) (lines.length + 1) [] hb' (by omega)
  rw [List.nil_append] at hloop
  simp only [GULP.readStep,
    show reMatchEnergy derivHdr = none from by decide,
    show hasSub derivHdr (str "Job Finished") = false from by decide,
    show hasSub derivHdr (str "Total CPU time") = false from by decide,
    show hasSub derivHdr (str "Final stress tensor components") = false from by decide,
    show hasSub derivHdr (str "Final internal derivatives") = true from by decide,
    Bool.false_eq_true, if_false, if_true, hloop]

theorem readStep_fracHdr (lines : List Str) (i : Nat) (g : GULP)
    {rows : List (Str × List PyFloat)} (hb : FracBlockAt lines (i + 6) rows) :
    GULP.readStep lines i fracHdr g
      = .ok { g with frac_coords := rows.map Prod.snd } := by
  have hb' : FracBlockAt lines (i + 5 + 1) rows := by
    rw [show i + 5 + 1 = i + 6 from by omega]
    exact hb
  have hlt : i + 5 + 1 + rows.length < lines.length := FracBlockAt_lt hb'
  have hloop : fracLoop lines (lines.length + 1) (i + 5) []
      = .ok ([] ++ rows.map Prod.snd) :=
    fracLoop_spec lines rows (i + 5) (lines.length + 1) [] hb' (by omega)
  rw [List.nil_append] at hloop
  simp only [GULP.readStep,
    show reMatchEnergy fracHdr = none from by decide,
    show hasSub fracHdr (str "Job Finished") = false from by decide,
    show hasSub fracHdr (str "Total CPU time") = false from by decide,
    show hasSub fracHdr (str "Final stress tensor components") = false from by decide,
    show hasSub fracHdr (str "Final internal derivatives") = false from by decide,
    show hasSub fracHdr (str " Cycle: ") = false from by decide,
    show hasSub fracHdr (str "Final fractional coordinates of atoms") = true
      from by decide,
    Bool.false_eq_true, if_false, if_true, hloop]

theorem readStep_cartHdr (lines : List Str) (i : Nat) (g : GULP)
    {m0 m1 m2 : List PyFloat} (h0 : latticeRow lines (i + 2) = some m0)
    (h1 : latticeRow lines (i + 3) = some m1)
    (h2 : latticeRow lines (i + 4) = some m2) :
    GULP.readStep lines i cartHdr g
      = .ok { g with lattice := Lattice.from_matrix [m0, m1, m2] } := by
  simp only [GULP.readStep,
    show reMatchEnergy cartHdr = none from by decide,
    show hasSub cartHdr (str "Job Finished") = false from by decide,
    show hasSub cartHdr (str "Total CPU time") = false from by decide,
    show hasSub cartHdr (str "Final stress tensor components") = false from by decide,
    show hasSub cartHdr (str "Final internal derivatives") = false from by decide,
    show hasSub cartHdr (str " Cycle: ") = false from by decide,
    show hasSub cartHdr (str "Final fractional coordinates of atoms") = false
      from by decide,
    show hasSub cartHdr (str "Final Cartesian lattice vectors") = true from by decide,
    Bool.false_eq_true, if_false, if_true, h0, h1, h2]

/-! ## Preservation: fields `read` never assigns -/

/-- The fields no branch of `read`'s scan ever assigns. -/
def Untouched (g g' : GULP) : Prop :=
  g'.label = g.label ∧ g'.ff = g.ff ∧ g'.opt = g.opt ∧ g'.exe = g.exe
    ∧ g'.steps = g.steps ∧ g'.folder = g.folder ∧ g'.input = g.input
    ∧ g'.output = g.output ∧ g'.dump = g.dump ∧ g'.sites = g.sites
    ∧ g'.struc = g.struc ∧ g'.positions = g.positions ∧ g'.error = g.error

theorem untouched_refl (g : GULP) : Untouched g g :=
  ⟨rfl, rfl, rfl, rfl, rfl, rfl, rfl, rfl, rfl, rfl, rfl, rfl, rfl⟩

theorem untouched_trans {g1 g2 g3 : GULP} (h1 : Untouched g1 g2)
    (h2 : Untouched g2 g3) : Untouched g1 g3 := by
  obtain ⟨a1, a2, a3, a4, a5, a6, a7, a8, a9, a10, a11, a12, a13⟩ := h1
  obtain ⟨b1, b2, b3, b4, b5, b6, b7, b8, b9, b10, b11, b12, b13⟩ := h2
  exact ⟨b1.trans a1, b2.trans a2, b3.trans a3, b4.trans a4, b5.trans a5, b6.trans a6,
    b7.trans a7, b8.trans a8, b9.trans a9, b10.trans a10, b11.trans a11, b12.trans a12,
    b13.trans a13⟩

theorem readStep_ok_untouched {lines : List Str} {i : Nat} {line : Str} {g g' : GULP}
    (h : GULP.readStep lines i line g = .ok g') : Untouched g g' := by
  unfold GULP.readStep at h
  repeat' split at h
  all_goals
    first
      | exact Except.noConfusion h
      | (injection h with h2; subst h2;
         exact ⟨rfl, rfl, rfl, rfl, rfl, rfl, rfl, rfl, rfl, rfl, rfl, rfl, rfl⟩)

theorem readStep_error_eq {lines : List Str} {i : Nat} {line : Str} {g g' : GULP}
    (h : GULP.readStep lines i line g = .error g') : g' = g := by
  unfold GULP.readStep at h
  repeat' split at h
  all_goals
    first
      | exact Except.noConfusion h
      | (injection h with h2; subst h2; rfl)

theorem readLoop_untouched {lines : List Str} :
    ∀ {rest : List Str} {i : Nat} {g g' : GULP},
      (GULP.readLoop lines i rest g = .ok g' ∨ GULP.readLoop lines i rest g = .error g') →
      Untouched g g' := by
  intro rest
  induction rest with
  | nil =>
    intro i g g' h
    rcases h with h | h
    · injection h with h2
      subst h2
      exact untouched_refl g
    · exact absurd h (by simp [GULP.readLoop])
  | cons a as ih =>
    intro i g g' h
    rw [readLoop_cons] at h
    cases hstep : GULP.readStep lines i a g with
    | error ge =>
      rw [hstep] at h
      simp only [] at h
      rcases h with h | h
      · exact Except.noConfusion h
      · injection h with h2
        subst h2
        rw [readStep_error_eq hstep]
        exact untouched_refl g
    | ok go =>
      rw [hstep] at h
      simp only [] at h
      exact untouched_trans (readStep_ok_untouched hstep) (ih h)

theorem read_eq_of_loop_error {lines : List Str} {g g' : GULP}
    (hl : GULP.readLoop lines 0 lines g = .error g') :
    g.read lines = { g' with error := true, energy := some (.num 100000) } := by
  rw [GULP.read, hl]

theorem read_eq_of_energy_none {lines : List Str} {g g' : GULP}
    (hl : GULP.readLoop lines 0 lines g = .ok g') (he : g'.energy = none) :
    g.read lines = { g' with error := true, energy := some (.num 100000) } := by
  rw [GULP.read, hl]
  simp only [he]

theorem read_eq_of_energy_nan {lines : List Str} {g g' : GULP} {v : PyFloat}
    (hl : GULP.readLoop lines 0 lines g = .ok g') (he : g'.energy = some v)
    (hn : v.isnan = true) :
    g.read lines = { g' with error := true, energy := some (.num 100000) } := by
  rw [GULP.read, hl]
  simp only [he, hn, if_true]

theorem read_eq_of_ok {lines : List Str} {g g' : GULP} {v : PyFloat}
    (hl : GULP.readLoop lines 0 lines g = .ok g') (he : g'.energy = some v)
    (hn : v.isnan = false) : g.read lines = g' := by
  rw [GULP.read, hl]
  simp only [he, hn, Bool.false_eq_true, if_false]

theorem read_io_fields (lines : List Str) (g : GULP) :
    (g.read lines).input = g.input ∧ (g.read lines).output = g.output
      ∧ (g.read lines).dump = g.dump ∧ (g.read lines).exe = g.exe := by
  cases hl : GULP.readLoop lines 0 lines g with
  | error g' =>
    obtain ⟨_, _, _, h4, _, _, h7, h8, h9, _, _, _, _⟩ := readLoop_untouched (Or.inr hl)
    rw [read_eq_of_loop_error hl]
    exact ⟨h7, h8, h9, h4⟩
  | ok g' =>
    obtain ⟨_, _, _, h4, _, _, h7, h8, h9, _, _, _, _⟩ := readLoop_untouched (Or.inl hl)
    cases hg : g'.energy with
    | none =>
      rw [read_eq_of_energy_none hl hg]
      exact ⟨h7, h8, h9, h4⟩
    | some v =>
      cases hnan : v.isnan with
      | true =>
        rw [read_eq_of_energy_nan hl hg hnan]
        exact ⟨h7, h8, h9, h4⟩
      | false =>
        rw [read_eq_of_ok hl hg hnan]
        exact ⟨h7, h8, h9, h4⟩

/-- Recognizer for subprocess-invocation events. -/
def isSystemEvent : Event → Bool
  | .system _ => true
  | _ => false

/-! ## The claims -/

/-- C9: `GULP.__init__` raises `NotImplementedError` for every `struc` argument
that is neither a pyxtal object nor an ASE `Atoms` object (a pyxtal object is
first converted to `Atoms` via `to_ase`); for every accepted input it
initializes `energy`, `stress`, `forces` and `positions` to `None`, `optimized`
and `error` to `False`, and `iter` and `cputime` to `0`. -/
theorem C9_init_validation_and_defaults
    (label path ff opt : Str) (steps : ℤ) (exe input output : Str)
    (dump : Option Str) :
    (GULP.init .other label path ff opt steps exe input output dump
        = .error (str "only support ASE atoms object"))
    ∧ (∀ p : Pyxtal,
        GULP.init (.pyx p) label path ff opt steps exe input output dump
          = GULP.init (.atoms p.to_ase) label path ff opt steps exe input output dump)
    ∧ (∀ a : Atoms, ∃ g : GULP,
        GULP.init (.atoms a) label path ff opt steps exe input output dump = .ok g
          ∧ g.energy = none ∧ g.stress = none ∧ g.forces = none ∧ g.positions = none
          ∧ g.optimized = false ∧ g.error = false ∧ g.iter = 0 ∧ g.cputime = .num 0) :=
  ⟨rfl, fun _ => rfl, fun _ => ⟨_, rfl, rfl, rfl, rfl, rfl, rfl, rfl, rfl, rfl⟩⟩

/-- C2: `run(clean)` serializes the structure to the input deck (`write`), then
invokes the executable (`execute`), then parses the report (`read`), in exactly
that order; and it removes the input and output files — and the dump file when
one was configured — exactly when `clean` is `True`. -/
theorem C2_run_sequence (get_para : Lattice → Para) (outLines : List Str) (g : GULP)
    (clean : Bool) {g2 : GULP} {evs : List Event}
    (h : g.run get_para outLines clean = some (g2, evs)) :
    g2 = g.read outLines
    ∧ ∃ cs, g.writeChunks get_para = some cs
        ∧ evs = [.writeFile g.input cs]
            ++ [.system (g.exe ++ str "<" ++ g.input ++ str ">" ++ g.output)]
            ++ [.readFile g.output]
            ++ (if clean then
                  [.remove g.input, .remove g.output]
                    ++ (match g.dump with
                        | some d => [.remove d]
                        | none => [])
                else []) := by
  cases hw : g.writeChunks get_para with
  | none =>
    rw [GULP.run, hw] at h
    exact Option.noConfusion h
  | some cs =>
    rw [GULP.run, hw] at h
    simp only [] at h
    injection h with h2
    injection h2 with ha hb
    subst ha
    subst hb
    obtain ⟨hin, hout, hdump, _⟩ := read_io_fields outLines g
    refine ⟨rfl, cs, rfl, ?_⟩
    cases clean with
    | false => simp [GULP.execute]
    | true =>
      simp only [GULP.execute, GULP.cleanEvents, hin, hout, hdump, if_true,
        List.cons_append, List.nil_append]

/-- C7: every `run()` performs exactly one synchronous invocation of the
executable — a single blocking `os.system` call whose command redirects the
input deck to stdin and stdout to the output file — between writing the deck and
reading the report; no second invocation occurs within one run. -/
theorem C7_single_system_call (get_para : Lattice → Para) (outLines : List Str)
    (g : GULP) (clean : Bool) {g2 : GULP} {evs : List Event}
    (h : g.run get_para outLines clean = some (g2, evs)) :
    GULP.execute g = [.system (g.exe ++ str "<" ++ g.input ++ str ">" ++ g.output)]
    ∧ evs.countP isSystemEvent = 1
    ∧ (∃ cs, evs.get? 0 = some (.writeFile g.input cs))
    ∧ evs.get? 1 = some (.system (g.exe ++ str "<" ++ g.input ++ str ">" ++ g.output))
    ∧ evs.get? 2 = some (.readFile g.output) := by
  obtain ⟨-, cs, -, rfl⟩ := C2_run_sequence get_para outLines g clean h
  refine ⟨rfl, ?_, ⟨cs, rfl⟩, rfl, rfl⟩
  cases clean with
  | false => rfl
  | true =>
    cases hd : g.dump with
    | none => simp [List.countP, List.countP.go, isSystemEvent]
    | some d => simp [List.countP, List.countP.go, isSystemEvent]

/-! ## Concrete instances for the witnesses -/

/-- A concrete ASE structure: cubic cell, one carbon at the origin. -/
def wAtoms : Atoms :=
  ⟨[[.num 1, .num 0, .num 0], [.num 0, .num 1, .num 0], [.num 0, .num 0, .num 1]],
    [[.num 0, .num 0, .num 0]], [str "C"]⟩

/-- A concrete parameter extraction for the witnesses. -/
def wGetPara : Lattice → Para :=
  fun _ => ⟨.num 1, .num 1, .num 1, .num 90, .num 90, .num 90⟩

/-- The calculator state produced by `GULP.init` on `wAtoms` with the source's
default arguments. -/
def wG : GULP :=
  { lattice := Lattice.from_matrix wAtoms.cell
    frac_coords := wAtoms.scaled_positions
    sites := wAtoms.chemical_symbols
    struc := wAtoms
    label := str "_"
    ff := str "reax"
    opt := str "conp"
    exe := str "gulp"
    steps := 1000
    folder := str "tmp"
    input := str "tmp/" ++ str "_" ++ str "gulp.in"
    output := str "tmp/" ++ str "_" ++ str "gulp.log"
    dump := none
    iter := 0
    energy := none
    stress := none
    forces := none
    positions := none
    optimized := false
    cputime := .num 0
    error := false }

def wCs : List Str := (wG.writeChunks wGetPara).getD []

def wG2 : GULP := wG.read []

def wEvs : List Event :=
  [.writeFile wG.input wCs]
    ++ [.system (wG.exe ++ str "<" ++ wG.input ++ str ">" ++ wG.output)]
    ++ [.readFile wG.output] ++ [.remove wG.input, .remove wG.output]

theorem wRunEq : wG.run wGetPara [] true = some (wG2, wEvs) := by decide

/-- Witness for C2 at a concrete calculator, empty report, `clean = True`. -/
theorem C2_run_sequence_witness :
    wG.run wGetPara [] true = some (wG2, wEvs)
    ∧ (wG2 = wG.read []
      ∧ ∃ cs, wG.writeChunks wGetPara = some cs
          ∧ wEvs = [.writeFile wG.input cs]
              ++ [.system (wG.exe ++ str "<" ++ wG.input ++ str ">" ++ wG.output)]
              ++ [.readFile wG.output]
              ++ (if true then
                    [.remove wG.input, .remove wG.output]
                      ++ (match wG.dump with
                          | some d => [.remove d]
                          | none => [])
                  else [])) :=
  ⟨wRunEq, C2_run_sequence wGetPara [] wG true wRunEq⟩

/-- Witness for C7 at the same concrete run. -/
theorem C7_single_system_call_witness :
    wG.run wGetPara [] true = some (wG2, wEvs)
    ∧ (GULP.execute wG
          = [.system (wG.exe ++ str "<" ++ wG.input ++ str ">" ++ wG.output)]
      ∧ wEvs.countP isSystemEvent = 1
      ∧ (∃ cs, wEvs.get? 0 = some (.writeFile wG.input cs))
      ∧ wEvs.get? 1
          = some (.system (wG.exe ++ str "<" ++ wG.input ++ str ">" ++ wG.output))
      ∧ wEvs.get? 2 = some (.readFile wG.output)) :=
  ⟨wRunEq, C7_single_system_call wGetPara [] wG true wRunEq⟩

/-- C8: if an exception is raised anywhere while `read()` scans the report, or if
the parsed energy is `NaN` after the scan — including a report with no
`Total lattice energy` line, where `energy` is still `None` when the `isnan`
check runs (a `TypeError`, caught by the same bare `except`) — then `read()`
terminates normally with `error = True` and `energy = 100000`; otherwise `error`
remains `False`. -/
theorem C8_error_flag (lines : List Str) (g : GULP) :
    (∀ g', GULP.readLoop lines 0 lines g = .error g' →
        (g.read lines).error = true ∧ (g.read lines).energy = some (.num 100000))
    ∧ (∀ g', GULP.readLoop lines 0 lines g = .ok g' → g'.energy = none →
        (g.read lines).error = true ∧ (g.read lines).energy = some (.num 100000))
    ∧ (∀ g' v, GULP.readLoop lines 0 lines g = .ok g' → g'.energy = some v →
        v.isnan = true →
        (g.read lines).error = true ∧ (g.read lines).energy = some (.num 100000))
    ∧ (∀ g' v, GULP.readLoop lines 0 lines g = .ok g' → g'.energy = some v →
        v.isnan = false → g.error = false → (g.read lines).error = false) := by
  refine ⟨?_, ?_, ?_, ?_⟩
  · intro g' hl
    rw [read_eq_of_loop_error hl]
    exact ⟨rfl, rfl⟩
  · intro g' hl he
    rw [read_eq_of_energy_none hl he]
    exact ⟨rfl, rfl⟩
  · intro g' v hl he hn
    rw [read_eq_of_energy_nan hl he hn]
    exact ⟨rfl, rfl⟩
  · intro g' v hl he hn herr
    rw [read_eq_of_ok hl he hn]
    obtain ⟨_, _, _, _, _, _, _, _, _, _, _, _, h13⟩ := readLoop_untouched (Or.inl hl)
    rw [h13, herr]

/-- A report line whose `Total CPU time` branch raises (`float('time')`). -/
def wBadCpuLine : Str := str " Total CPU time"

/-- A report whose energy parses as `nan`. -/
def wNanLine : Str := str " Total lattice energy = nan eV"

theorem C8_error_flag_witness :
    (GULP.readLoop [wBadCpuLine] 0 [wBadCpuLine] wG = .error wG
      ∧ (wG.read [wBadCpuLine]).error = true
      ∧ (wG.read [wBadCpuLine]).energy = some (.num 100000))
    ∧ (GULP.readLoop [] 0 [] wG = .ok wG ∧ wG.energy = none
      ∧ (wG.read []).error = true ∧ (wG.read []).energy = some (.num 100000))
    ∧ (GULP.readLoop [wNanLine] 0 [wNanLine] wG
          = .ok { wG with energy := some .nan }
      ∧ (wG.read [wNanLine]).error = true
      ∧ (wG.read [wNanLine]).energy = some (.num 100000))
    ∧ (GULP.readLoop [energyLine (str "1.5")] 0 [energyLine (str "1.5")] wG
          = .ok { wG with energy := some (.num (3 / 2)) }
      ∧ wG.error = false
      ∧ (wG.read [energyLine (str "1.5")]).error = false) := by
  have h1 := (C8_error_flag [wBadCpuLine] wG).1 wG (by decide)
  have h2 := (C8_error_flag [] wG).2.1 wG (by decide) (by decide)
  have h3 := (C8_error_flag [wNanLine] wG).2.2.1 { wG with energy := some .nan } .nan
    (by decide) (by decide) (by decide)
  have h4 := (C8_error_flag [energyLine (str "1.5")] wG).2.2.2
    { wG with energy := some (.num (3 / 2)) } (.num (3 / 2)) (by decide) (by decide)
    (by decide) (by decide)
  exact ⟨⟨by decide, h1⟩, ⟨by decide, by decide, h2⟩, ⟨by decide, h3⟩,
    ⟨by decide, by decide, h4⟩⟩

/-! ## C10: `single_optimize` / `optimize` -/

theorem getLast?_cons_ne {α : Type} (a : α) {l : List α} (h : l ≠ []) :
    (a :: l).getLast? = l.getLast? := by
  match l, h with
  | b :: m, _ => rfl

/-- A sequence of error-free optimization stages: stage `k` (fed report
`outs k`) succeeds with structure `p`, energy `e` and cputime `t`, and the next
stage continues from `p`.  The final `StrucArg` records where a further stage
would resume. -/
inductive RunsStages (get_para : Lattice → Para) (outs : Nat → List Str)
    (ff exe path label : Str) :
    Nat → StrucArg → List Str → List (Pyxtal × Option PyFloat × PyFloat) →
      StrucArg → Prop where
  | nil (k : Nat) (s : StrucArg) : RunsStages get_para outs ff exe path label k s [] [] s
  | cons {k : Nat} {s : StrucArg} {opt : Str} {rest : List Str}
      {out : List (Pyxtal × Option PyFloat × PyFloat)} {sfin : StrucArg}
      {p : Pyxtal} {e : Option PyFloat} {t : PyFloat} :
      single_optimize get_para (outs k) s ff opt exe path label true
        = some (some p, e, t, false) →
      RunsStages get_para outs ff exe path label (k + 1) (.pyx p) rest out sfin →
      RunsStages get_para outs ff exe path label k s (opt :: rest)
        ((p, e, t) :: out) sfin

theorem runsStages_nil_inv {get_para : Lattice → Para} {outs : Nat → List Str}
    {ff exe path label : Str} {k : Nat} {s sfin : StrucArg}
    {out : List (Pyxtal × Option PyFloat × PyFloat)}
    (h : RunsStages get_para outs ff exe path label k s [] out sfin) :
    out = [] ∧ sfin = s := by
  cases h
  exact ⟨rfl, rfl⟩

theorem runsStages_length {get_para : Lattice → Para} {outs : Nat → List Str}
    {ff exe path label : Str} :
    ∀ {opts : List Str} {k : Nat} {s sfin : StrucArg}
      {out : List (Pyxtal × Option PyFloat × PyFloat)},
      RunsStages get_para outs ff exe path label k s opts out sfin →
      out.length = opts.length := by
  intro opts
  induction opts with
  | nil =>
    intro k s sfin out h
    rw [(runsStages_nil_inv h).1]
    rfl
  | cons opt rest ih =>
    intro k s sfin out h
    cases h with
    | cons hs hrest => simp [ih hrest]

/-- The success path of the `optimize` loop: error-free stages thread the
structure, the returned values are the last stage's, and the cputimes
accumulate onto `time_total`. -/
theorem optimizeLoop_success {get_para : Lattice → Para} {outs : Nat → List Str}
    {ff exe path label : Str} :
    ∀ (opts : List Str), opts ≠ [] →
      ∀ {k : Nat} {s sfin : StrucArg}
        {out : List (Pyxtal × Option PyFloat × PyFloat)} (tt : PyFloat)
        {lp : Pyxtal} {le : Option PyFloat} {lt : PyFloat},
        RunsStages get_para outs ff exe path label k s opts out sfin →
        out.getLast? = some (lp, le, lt) →
        optimizeLoop get_para outs ff exe path label opts k s tt
          = some (some lp, le, (out.map (fun x => x.2.2)).foldl PyFloat.add tt,
              false) := by
  intro opts
  induction opts with
  | nil => intro hne; exact absurd rfl hne
  | cons opt rest ih =>
    intro _ k s sfin out tt lp le lt hrs hlast
    cases hrs with
    | cons hsingle hrest =>
      rw [optimizeLoop, hsingle]
      simp only [Bool.false_eq_true, if_false]
      rename_i out2 p e t
      cases rest with
      | nil =>
        obtain ⟨h1, _⟩ := runsStages_nil_inv hrest
        subst h1
        have h3 : some (p, e, t) = some (lp, le, lt) := hlast
        injection h3 with h2
        injection h2 with hpp hrest2
        injection hrest2 with hee htt
        subst hpp
        subst hee
        subst htt
        rfl
      | cons r1 r2 =>
        have hne2 : (r1 :: r2 : List Str) ≠ [] := by simp
        have hlen := runsStages_length hrest
        have houtne : ∀ {o : List (Pyxtal × Option PyFloat × PyFloat)},
            o.length = (r1 :: r2 : List Str).length → o ≠ [] := by
          intro o hl hnil
          rw [hnil] at hl
          simp at hl
        rw [getLast?_cons_ne _ (houtne hlen)] at hlast
        rw [ih hne2 (tt.add _) hrest hlast]
        rfl

/-- The error-propagation path of the `optimize` loop: after any number of
error-free stages, a stage that reports an error makes the loop return
`(None, 100000, 0, True)` at once. -/
theorem optimizeLoop_error {get_para : Lattice → Para} {outs : Nat → List Str}
    {ff exe path label : Str} :
    ∀ (opts : List Str) {k : Nat} {s sfin : StrucArg}
      {out : List (Pyxtal × Option PyFloat × PyFloat)} (tt : PyFloat)
      (opt : Str) (rest : List Str) {sp : Option Pyxtal} {se : Option PyFloat}
      {st : PyFloat},
      RunsStages get_para outs ff exe path label k s opts out sfin →
      single_optimize get_para (outs (k + opts.length)) sfin ff opt exe path label true
        = some (sp, se, st, true) →
      optimizeLoop get_para outs ff exe path label (opts ++ opt :: rest) k s tt
        = some (none, some (.num 100000), .num 0, true) := by
  intro opts
  induction opts with
  | nil =>
    intro k s sfin out tt opt rest sp se st hrs hfail
    obtain ⟨_, h2⟩ := runsStages_nil_inv hrs
    subst h2
    rw [List.nil_append, optimizeLoop]
    rw [show k + ([] : List Str).length = k from by simp] at hfail
    rw [hfail]
    rfl
  | cons o1 orest ih =>
    intro k s sfin out tt opt rest sp se st hrs hfail
    cases hrs with
    | cons hsingle hrest =>
      rename_i out2 p e t
      rw [List.cons_append, optimizeLoop, hsingle]
      simp only [Bool.false_eq_true, if_false]
      have hfail' : single_optimize get_para (outs (k + 1 + orest.length)) sfin ff opt
          exe path label true = some (sp, se, st, true) := by
        rw [show k + 1 + orest.length = k + (o1 :: orest : List Str).length from by
          simp; omega]
        exact hfail
      cases orest with
      | nil =>
        obtain ⟨_, h2⟩ := runsStages_nil_inv hrest
        subst h2
        rw [List.nil_append, optimizeLoop]
        rw [show k + 1 + ([] : List Str).length = k + 1 from by simp] at hfail'
        rw [hfail']
        rfl
      | cons o2 o3 =>
        have h9 := ih (tt.add t) opt rest hrest hfail'
        rw [List.cons_append] at h9
        exact h9

/-- C10: `single_optimize` returns `(None, 100000, 0, True)` exactly when the
calculator's `error` flag is set after `run()`, and otherwise
`(to_pyxtal(), energy, cputime, False)`; `optimize` applies `single_optimize`
once per entry of `optimizations` in order, returns `(None, 100000, 0, True)` as
soon as any stage reports an error, and otherwise returns the last stage's
structure and energy, the sum of all stage cputimes, and `False`. -/
theorem C10_optimize_pipeline (get_para : Lattice → Para) (outs : Nat → List Str)
    (ff exe path label : Str) :
    (∀ (outLines : List Str) (struc : StrucArg) (opt : Str) (clean : Bool)
        (cal cal2 : GULP) (evs : List Event),
        GULP.init struc label path ff opt 1000 (str "gulp") (str "gulp.in")
            (str "gulp.log") none = .ok cal →
        cal.run get_para outLines clean = some (cal2, evs) →
        single_optimize get_para outLines struc ff opt exe path label clean
          = some (if cal2.error then (none, some (.num 100000), .num 0, true)
              else (some cal2.to_pyxtal, cal2.energy, cal2.cputime, false)))
    ∧ (∀ (opts : List Str), opts ≠ [] →
        ∀ (struc sfin : StrucArg)
          (out : List (Pyxtal × Option PyFloat × PyFloat))
          (lp : Pyxtal) (le : Option PyFloat) (lt : PyFloat) (clean : Bool),
          RunsStages get_para outs ff exe path label 0 struc opts out sfin →
          out.getLast? = some (lp, le, lt) →
          optimize get_para outs struc ff opts exe path label clean
            = some (some lp, le,
                (out.map (fun x => x.2.2)).foldl PyFloat.add (.num 0), false))
    ∧ (∀ (opts : List Str) (struc sfin : StrucArg)
        (out : List (Pyxtal × Option PyFloat × PyFloat)) (opt : Str)
        (rest : List Str) (sp : Option Pyxtal) (se : Option PyFloat)
        (st : PyFloat) (clean : Bool),
        RunsStages get_para outs ff exe path label 0 struc opts out sfin →
        single_optimize get_para (outs opts.length) sfin ff opt exe path label true
          = some (sp, se, st, true) →
        optimize get_para outs struc ff (opts ++ opt :: rest) exe path label clean
          = some (none, some (.num 100000), .num 0, true)) := by
  refine ⟨?_, ?_, ?_⟩
  · intro outLines struc opt clean cal cal2 evs hinit hrun
    simp only [single_optimize, hinit, hrun]
    by_cases herr : cal2.error = true
    · simp [herr]
    · simp only [Bool.not_eq_true] at herr
      simp [herr]
  · intro opts hne struc sfin out lp le lt clean hrs hlast
    exact optimizeLoop_success opts hne (.num 0) hrs hlast
  · intro opts struc sfin out opt rest sp se st clean hrs hfail
    rw [optimize]
    exact optimizeLoop_error opts (.num 0) opt rest hrs
      (by rw [show opts.length = 0 + opts.length from by omega] at hfail; exact hfail)

def wOutsB : Nat → List Str := fun _ => [energyLine (str "1.5")]

def wOutsC : Nat → List Str := fun _ => []

def wCal2 : GULP := wG.read [energyLine (str "1.5")]

def wP : Pyxtal := wCal2.to_pyxtal

theorem wInitEq : GULP.init (.atoms wAtoms) (str "_") (str "tmp") (str "reax")
    (str "conp") 1000 (str "gulp") (str "gulp.in") (str "gulp.log") none
    = .ok wG := by decide

theorem wRunEq2 : wG.run wGetPara [energyLine (str "1.5")] true
    = some (wCal2, wEvs) := by decide

theorem wSingleEq : single_optimize wGetPara [energyLine (str "1.5")] (.atoms wAtoms)
    (str "reax") (str "conp") (str "gulp") (str "tmp") (str "_") true
    = some (some wP, some (.num (3 / 2)), .num 0, false) := by decide

theorem wFailEq : single_optimize wGetPara [] (.atoms wAtoms) (str "reax")
    (str "conp") (str "gulp") (str "tmp") (str "_") true
    = some (none, some (.num 100000), .num 0, true) := by decide

/-- Witness for C10: a successful single stage, a one-stage `optimize`, and an
immediately failing `optimize`. -/
theorem C10_optimize_pipeline_witness :
    (GULP.init (.atoms wAtoms) (str "_") (str "tmp") (str "reax") (str "conp") 1000
        (str "gulp") (str "gulp.in") (str "gulp.log") none = .ok wG)
    ∧ single_optimize wGetPara [energyLine (str "1.5")] (.atoms wAtoms) (str "reax")
        (str "conp") (str "gulp") (str "tmp") (str "_") true
        = some (if wCal2.error then (none, some (PyFloat.num 100000), PyFloat.num 0, true)
            else (some wCal2.to_pyxtal, wCal2.energy, wCal2.cputime, false))
    ∧ optimize wGetPara wOutsB (.atoms wAtoms) (str "reax") [str "conp"] (str "gulp")
        (str "tmp") (str "_") true
        = some (some wP, some (PyFloat.num (3 / 2)),
            (([(wP, some (PyFloat.num (3 / 2)), (PyFloat.num 0 : PyFloat))]).map
              (fun x => x.2.2)).foldl PyFloat.add (PyFloat.num 0), false)
    ∧ optimize wGetPara wOutsC (.atoms wAtoms) (str "reax")
        (([] : List Str) ++ str "conp" :: []) (str "gulp") (str "tmp") (str "_") true
        = some (none, some (PyFloat.num 100000), PyFloat.num 0, true) := by
  refine ⟨wInitEq, ?_, ?_, ?_⟩
  · exact (C10_optimize_pipeline wGetPara wOutsB (str "reax") (str "gulp") (str "tmp")
      (str "_")).1 [energyLine (str "1.5")] (.atoms wAtoms) (str "conp") true wG wCal2
      wEvs wInitEq wRunEq2
  · exact (C10_optimize_pipeline wGetPara wOutsB (str "reax") (str "gulp") (str "tmp")
      (str "_")).2.1 [str "conp"] (by decide) (.atoms wAtoms) (.pyx wP)
      [(wP, some (PyFloat.num (3 / 2)), .num 0)] wP (some (PyFloat.num (3 / 2))) (PyFloat.num 0) true
      (RunsStages.cons wSingleEq (RunsStages.nil 1 (.pyx wP))) rfl
  · exact (C10_optimize_pipeline wGetPara wOutsC (str "reax") (str "gulp") (str "tmp")
      (str "_")).2.2 [] (.atoms wAtoms) (.atoms wAtoms) [] (str "conp") [] none
      (some (PyFloat.num 100000)) (PyFloat.num 0) true (RunsStages.nil 0 (.atoms wAtoms)) wFailEq

/-! ## C5 / C6: the serialized deck -/

theorem mapM_some_mem {α β : Type} (f : α → Option β) :
    ∀ {l : List α} {r : List β}, l.mapM f = some r → ∀ y ∈ r, ∃ x ∈ l, f x = some y := by
  intro l
  induction l with
  | nil =>
    intro r h y hy
    simp only [List.mapM_nil, Option.pure_def, Option.some.injEq] at h
    subst h
    cases hy
  | cons a as ih =>
    intro r h y hy
    rw [List.mapM_cons] at h
    cases hfa : f a with
    | none => rw [hfa] at h; simp at h
    | some b =>
      rw [hfa] at h
      cases hrest : as.mapM f with
      | none => rw [hrest] at h; simp at h
      | some bs =>
        rw [hrest] at h
        simp only [Option.bind_eq_bind, Option.some_bind, Option.pure_def,
          Option.some.injEq] at h
        subst h
        rcases List.mem_cons.mp hy with h1 | h1
        · exact ⟨a, List.mem_cons_self _ _, h1 ▸ hfa⟩
        · obtain ⟨x, hx, hfx⟩ := ih hrest y h1
          exact ⟨x, List.mem_cons_of_mem _ hx, hfx⟩

theorem mapM_some_length {α β : Type} (f : α → Option β) :
    ∀ {l : List α} {r : List β}, l.mapM f = some r → r.length = l.length := by
  intro l
  induction l with
  | nil =>
    intro r h
    simp only [List.mapM_nil, Option.pure_def, Option.some.injEq] at h
    subst h
    rfl
  | cons a as ih =>
    intro r h
    rw [List.mapM_cons] at h
    cases hfa : f a with
    | none => rw [hfa] at h; simp at h
    | some b =>
      rw [hfa] at h
      cases hrest : as.mapM f with
      | none => rw [hrest] at h; simp at h
      | some bs =>
        rw [hrest] at h
        simp only [Option.bind_eq_bind, Option.some_bind, Option.pure_def,
          Option.some.injEq] at h
        subst h
        simp [ih hrest]

theorem fracChunk_inv {coord : List PyFloat} {site : Str} {y : Str}
    (h : fracChunk coord site = some y) :
    ∃ x0 x1 x2 r2, coord = x0 :: x1 :: x2 :: r2
      ∧ y = fmt4s site ++ ' ' :: fmt12_6 x0 ++ ' ' :: fmt12_6 x1 ++ ' ' :: fmt12_6 x2
          ++ str " core \n" := by
  match coord, h with
  | x0 :: x1 :: x2 :: r2, h =>
    rw [fracChunk] at h
    injection h with h2
    exact ⟨x0, x1, x2, r2, rfl, h2.symm⟩

theorem digitChar_isDigit {n : Nat} (h : n ≤ 9) :
    (Char.ofNat (48 + n)).isDigit = true := by
  interval_cases n <;> decide

theorem natCharsAux_digit : ∀ (f n : Nat), ∀ c ∈ natCharsAux f n, c.isDigit = true := by
  intro f
  induction f with
  | zero => intro n c hc; cases hc
  | succ f ih =>
    intro n c hc
    rw [natCharsAux] at hc
    by_cases hn : n ≤ 9
    · rw [if_pos hn] at hc
      rcases List.mem_cons.mp hc with h1 | h1
      · subst h1; exact digitChar_isDigit hn
      · cases h1
    · rw [if_neg hn] at hc
      rcases List.mem_append.mp hc with h1 | h1
      · exact ih (n / 10) c h1
      · rcases List.mem_cons.mp h1 with h2 | h2
        · subst h2
          exact digitChar_isDigit (Nat.le_of_lt_succ (Nat.mod_lt n (by omega)))
        · cases h2

theorem mem_natChars {n : Nat} {c : Char} (h : c ∈ natChars n) : c.isDigit = true :=
  natCharsAux_digit (n + 1) n c h

theorem intRepr_chars {n : ℤ} {c : Char} (h : c ∈ intRepr n) :
    c.isDigit = true ∨ c = '-' := by
  rw [intRepr] at h
  by_cases hn : n < 0
  · rw [if_pos hn] at h
    rcases List.mem_cons.mp h with h1 | h1
    · exact Or.inr h1
    · exact Or.inl (mem_natChars h1)
  · rw [if_neg hn] at h
    exact Or.inl (mem_natChars h)

theorem not_mem_r_maxcycle (g : GULP) : 'r' ∉ maxcycleChunk g := by
  rw [maxcycleChunk]
  refine not_mem_append (by decide) (not_mem_append ?_ (by decide))
  intro hm
  rcases intRepr_chars hm with h1 | h1
  · exact absurd h1 (by decide)
  · exact absurd h1 (by decide)

/-- The characters `fmt12_6` can emit: digits, space, minus, dot, and the
letters of `nan` / `inf`. -/
theorem fmt12_6_chars {v : PyFloat} {c : Char} (h : c ∈ fmt12_6 v) :
    c.isDigit = true ∨ c = ' ' ∨ c = '-' ∨ c = '.' ∨ c = 'n' ∨ c = 'a' ∨ c = 'i'
      ∨ c = 'f' := by
  have hpad : ∀ {w : Nat} {s : Str}, c ∈ padLeft w s → c = ' ' ∨ c ∈ s := by
    intro w s hc
    rcases List.mem_append.mp hc with h1 | h1
    · exact Or.inl ((List.mem_replicate.mp h1).2)
    · exact Or.inr h1
  have hzeros : ∀ {w : Nat} {s : Str}, c ∈ padZeros w s → c = '0' ∨ c ∈ s := by
    intro w s hc
    rcases List.mem_append.mp hc with h1 | h1
    · exact Or.inl ((List.mem_replicate.mp h1).2)
    · exact Or.inr h1
  cases v with
  | num q =>
    rw [fmt12_6] at h
    rcases hpad h with h1 | h1
    · exact Or.inr (Or.inl h1)
    · have hcore : ∀ {m k : Nat},
          c ∈ natChars m ++ '.' :: padZeros 6 (natChars k) →
            c.isDigit = true ∨ c = '.' := by
        intro m k hc
        rcases List.mem_append.mp hc with h2 | h2
        · exact Or.inl (mem_natChars h2)
        · rcases List.mem_cons.mp h2 with h3 | h3
          · exact Or.inr h3
          · rcases hzeros h3 with h4 | h4
            · subst h4; exact Or.inl (by decide)
            · exact Or.inl (mem_natChars h4)
      by_cases hq : q < 0
      · rw [if_pos hq] at h1
        rcases List.mem_cons.mp h1 with h2 | h2
        · exact Or.inr (Or.inr (Or.inl h2))
        · rcases hcore h2 with h3 | h3
          · exact Or.inl h3
          · exact Or.inr (Or.inr (Or.inr (Or.inl h3)))
      · rw [if_neg hq] at h1
        rcases hcore h1 with h3 | h3
        · exact Or.inl h3
        · exact Or.inr (Or.inr (Or.inr (Or.inl h3)))
  | nan =>
    rw [fmt12_6] at h
    rcases hpad h with h1 | h1
    · exact Or.inr (Or.inl h1)
    · rcases List.mem_cons.mp h1 with h2 | h2
      · subst h2; decide
      · rcases List.mem_cons.mp h2 with h3 | h3
        · subst h3; decide
        · rcases List.mem_cons.mp h3 with h4 | h4
          · subst h4; decide
          · cases h4
  | inf b =>
    rw [fmt12_6] at h
    rcases hpad h with h1 | h1
    · exact Or.inr (Or.inl h1)
    · cases b with
      | true =>
        simp only [if_true] at h1
        rcases List.mem_cons.mp h1 with h2 | h2
        · subst h2; decide
        · rcases List.mem_cons.mp h2 with h3 | h3
          · subst h3; decide
          · rcases List.mem_cons.mp h3 with h4 | h4
            · subst h4; decide
            · rcases List.mem_cons.mp h4 with h5 | h5
              · subst h5; decide
              · cases h5
      | false =>
        simp only [Bool.false_eq_true, if_false] at h1
        rcases List.mem_cons.mp h1 with h2 | h2
        · subst h2; decide
        · rcases List.mem_cons.mp h2 with h3 | h3
          · subst h3; decide
          · rcases List.mem_cons.mp h3 with h4 | h4
            · subst h4; decide
            · cases h4

theorem not_mem_m_fmt12_6 (v : PyFloat) : 'm' ∉ fmt12_6 v := by
  intro hm
  rcases fmt12_6_chars hm with h | h | h | h | h | h | h | h
  · exact absurd h (by decide)
  all_goals exact absurd h (by decide)

theorem ne_of_mem_not_mem {l m : Str} {c : Char} (hc : c ∈ l) (hm : c ∉ m) :
    l ≠ m := fun h => hm (h ▸ hc)

theorem mem_r_headChunk (g : GULP) : 'r' ∈ headChunk g := by
  rw [headChunk]
  by_cases h1 : g.opt = str "conv"
  · rw [if_pos h1]
    exact List.mem_append_left _ (by decide)
  · rw [if_neg h1]
    by_cases h2 : g.opt = str "single"
    · rw [if_pos h2]
      decide
    · rw [if_neg h2]
      exact List.mem_append_left _ (by decide)

theorem cons_ne_of_head {a b : Char} {l m : Str} (h : a ≠ b) : a :: l ≠ b :: m := by
  intro hh
  injection hh with h1 _
  exact h h1

theorem not_mem_m_cellChunk (p : Para) : 'm' ∉ cellChunk p := by
  rw [cellChunk]
  refine not_mem_append (not_mem_m_fmt12_6 _) (not_mem_append (not_mem_m_fmt12_6 _)
    (not_mem_append (not_mem_m_fmt12_6 _) (not_mem_append (not_mem_m_fmt12_6 _)
      (not_mem_append (not_mem_m_fmt12_6 _)
        (not_mem_append (not_mem_m_fmt12_6 _) (by decide))))))

theorem getLast?_append_ne {α : Type} {b : List α} (a : List α) (h : b ≠ []) :
    (a ++ b).getLast? = b.getLast? := by
  induction a with
  | nil => rfl
  | cons c r ih =>
    have hne : r ++ b ≠ [] := by simp [h]
    rw [List.cons_append, getLast?_cons_ne c hne, ih]

/-- C5: `write()` serializes the structure into the deck: a `cell` block with the
six lattice parameters each in a `12.6f` field, a `fractional` block with one
line per site (`species, three coordinates, core`), a `Species` block listing
each distinct species exactly once, and a `library <ff>` line followed by
`ewald 10.0`. -/
theorem C5_write_deck (get_para : Lattice → Para) (g : GULP) {cs : List Str}
    (hw : g.writeChunks get_para = some cs) :
    ∃ fr, (g.frac_coords.zip g.sites).mapM (fun cst => fracChunk cst.1 cst.2) = some fr
      ∧ cs = [headChunk g, str "\ncell\n",
            fmt12_6 (get_para g.lattice).a ++ (fmt12_6 (get_para g.lattice).b
              ++ (fmt12_6 (get_para g.lattice).c ++ (fmt12_6 (get_para g.lattice).alpha
              ++ (fmt12_6 (get_para g.lattice).beta
              ++ (fmt12_6 (get_para g.lattice).gamma ++ str "\n"))))),
            str "\nfractional\n"]
          ++ fr ++ [str "\nSpecies\n"] ++ (g.sites.dedup).map speciesChunk
          ++ [str "\nlibrary " ++ (g.ff ++ str "\n"), str "ewald 10.0\n"]
          ++ (if g.opt ≠ str "single" then [maxcycleChunk g] else [])
          ++ (match g.dump with
              | some d => [dumpChunk d]
              | none => [])
      ∧ fr.length = (g.frac_coords.zip g.sites).length
      ∧ (∀ ch ∈ fr, ∃ coord site x0 x1 x2 r2,
          (coord, site) ∈ g.frac_coords.zip g.sites ∧ coord = x0 :: x1 :: x2 :: r2
          ∧ ch = fmt4s site ++ ' ' :: fmt12_6 x0 ++ ' ' :: fmt12_6 x1
              ++ ' ' :: fmt12_6 x2 ++ str " core \n")
      ∧ (g.sites.dedup).Nodup
      ∧ (∀ sp : Str, sp ∈ g.sites.dedup ↔ sp ∈ g.sites)
      ∧ (∀ sp ∈ g.sites.dedup,
          speciesChunk sp = fmt4s sp ++ str " core " ++ fmt4s sp ++ str "\n") := by
  cases hmap : (g.frac_coords.zip g.sites).mapM (fun cst => fracChunk cst.1 cst.2) with
  | none =>
    rw [GULP.writeChunks, hmap] at hw
    exact Option.noConfusion hw
  | some fr =>
    rw [GULP.writeChunks, hmap] at hw
    injection hw with hcs
    refine ⟨fr, rfl, hcs.symm, mapM_some_length _ hmap, ?_, List.nodup_dedup _,
      fun sp => List.mem_dedup, fun sp _ => rfl⟩
    intro ch hch
    obtain ⟨⟨coord, site⟩, hmem, hf⟩ := mapM_some_mem _ hmap ch hch
    obtain ⟨x0, x1, x2, r2, hc, hy⟩ := fracChunk_inv hf
    exact ⟨coord, site, x0, x1, x2, r2, hmem, hc, hy⟩

theorem wWriteEq : wG.writeChunks wGetPara = some wCs := by decide

/-- Witness for C5 at the concrete calculator `wG`. -/
theorem C5_write_deck_witness :
    wG.writeChunks wGetPara = some wCs
    ∧ (∃ fr, (wG.frac_coords.zip wG.sites).mapM (fun cst => fracChunk cst.1 cst.2) = some fr
      ∧ wCs = [headChunk wG, str "\ncell\n",
            fmt12_6 (wGetPara wG.lattice).a ++ (fmt12_6 (wGetPara wG.lattice).b
              ++ (fmt12_6 (wGetPara wG.lattice).c ++ (fmt12_6 (wGetPara wG.lattice).alpha
              ++ (fmt12_6 (wGetPara wG.lattice).beta
              ++ (fmt12_6 (wGetPara wG.lattice).gamma ++ str "\n"))))),
            str "\nfractional\n"]
          ++ fr ++ [str "\nSpecies\n"] ++ (wG.sites.dedup).map speciesChunk
          ++ [str "\nlibrary " ++ (wG.ff ++ str "\n"), str "ewald 10.0\n"]
          ++ (if wG.opt ≠ str "single" then [maxcycleChunk wG] else [])
          ++ (match wG.dump with
              | some d => [dumpChunk d]
              | none => [])
      ∧ fr.length = (wG.frac_coords.zip wG.sites).length
      ∧ (∀ ch ∈ fr, ∃ coord site x0 x1 x2 r2,
          (coord, site) ∈ wG.frac_coords.zip wG.sites ∧ coord = x0 :: x1 :: x2 :: r2
          ∧ ch = fmt4s site ++ ' ' :: fmt12_6 x0 ++ ' ' :: fmt12_6 x1
              ++ ' ' :: fmt12_6 x2 ++ str " core \n")
      ∧ (wG.sites.dedup).Nodup
      ∧ (∀ sp : Str, sp ∈ wG.sites.dedup ↔ sp ∈ wG.sites)
      ∧ (∀ sp ∈ wG.sites.dedup,
          speciesChunk sp = fmt4s sp ++ str " core " ++ fmt4s sp ++ str "\n")) :=
  ⟨wWriteEq, C5_write_deck wGetPara wG wWriteEq⟩

/-! ## C6: keyword line, `maxcycle` directive, and `output cif` dump line -/

theorem mem_m_maxcycleChunk (g : GULP) : 'm' ∈ maxcycleChunk g := by
  rw [maxcycleChunk]
  exact List.mem_append_left _ (by decide)

theorem mem_r_fracline (site : Str) (x0 x1 x2 : PyFloat) :
    'r' ∈ fmt4s site ++ ' ' :: fmt12_6 x0 ++ ' ' :: fmt12_6 x1
        ++ ' ' :: fmt12_6 x2 ++ str " core \n" :=
  List.mem_append_right _ (by decide)

theorem mem_r_speciesChunk (sp : Str) : 'r' ∈ speciesChunk sp := by
  rw [speciesChunk]
  exact List.mem_append_left _ (List.mem_append_left _ (List.mem_append_right _ (by decide)))

theorem libChunk_ne_maxcycleChunk (g g' : GULP) : libChunk g ≠ maxcycleChunk g' := by
  have h1 : libChunk g = '\n' :: (str "library " ++ (g.ff ++ str "\n")) := rfl
  have h2 : maxcycleChunk g' = 'm' :: (str "axcycle " ++ (intRepr g'.steps ++ str "\n")) := rfl
  rw [h1, h2]
  exact cons_ne_of_head (by decide)

theorem dumpChunk_ne_maxcycleChunk (d : Str) (g' : GULP) : dumpChunk d ≠ maxcycleChunk g' := by
  have h1 : dumpChunk d = 'o' :: (str "utput cif " ++ (d ++ str "\n")) := rfl
  have h2 : maxcycleChunk g' = 'm' :: (str "axcycle " ++ (intRepr g'.steps ++ str "\n")) := rfl
  rw [h1, h2]
  exact cons_ne_of_head (by decide)

theorem ewald_ne_dumpChunk (d : Str) : str "ewald 10.0\n" ≠ dumpChunk d := by
  have h1 : str "ewald 10.0\n" = 'e' :: str "wald 10.0\n" := rfl
  have h2 : dumpChunk d = 'o' :: (str "utput cif " ++ (d ++ str "\n")) := rfl
  rw [h1, h2]
  exact cons_ne_of_head (by decide)

/-- C6: with `opt = "single"` the first deck line is `grad conp stress` and no
`maxcycle` line is written anywhere in the deck; with any other `opt` the first
line is `opti stress <opt> conjugate nosymmetry` and a `maxcycle <steps>` line
appears; the final `output cif <dump>` line is appended exactly when `dump` is
not `None` (with `dump = None` the deck ends with `ewald 10.0` or the
`maxcycle` line, neither of which is an `output cif` line). -/
theorem C6_write_keywords (get_para : Lattice → Para) (g : GULP) {cs : List Str}
    (hw : g.writeChunks get_para = some cs) :
    (g.opt = str "single" →
        cs.head? = some (str "grad conp stress\n") ∧ maxcycleChunk g ∉ cs)
    ∧ (g.opt ≠ str "single" →
        cs.head? = some (str "opti stress " ++ (g.opt ++ str " conjugate nosymmetry\n"))
        ∧ maxcycleChunk g ∈ cs
        ∧ maxcycleChunk g = str "maxcycle " ++ (intRepr g.steps ++ str "\n"))
    ∧ (∀ d, g.dump = some d → cs.getLast? = some (dumpChunk d)
        ∧ dumpChunk d = str "output cif " ++ (d ++ str "\n"))
    ∧ (g.dump = none →
        (∀ d' : Str, cs.getLast? ≠ some (dumpChunk d'))
        ∧ cs.getLast? = some (if g.opt = str "single" then str "ewald 10.0\n"
                              else maxcycleChunk g)) := by
  cases hmap : (g.frac_coords.zip g.sites).mapM (fun cst => fracChunk cst.1 cst.2) with
  | none =>
    rw [GULP.writeChunks, hmap] at hw
    exact Option.noConfusion hw
  | some fr =>
    rw [GULP.writeChunks, hmap] at hw
    injection hw with hcs
    have hhead : cs.head? = some (headChunk g) := by rw [← hcs]; rfl
    refine ⟨fun hopt => ⟨?_, ?_⟩, fun hopt => ⟨?_, ?_, rfl⟩, fun d hd => ⟨?_, rfl⟩,
      fun hd => ?_⟩
    · rw [hhead, headChunk, if_neg (by rw [hopt]; decide), if_pos hopt]
    · rw [← hcs]
      intro hmem
      rw [if_neg (fun hn => hn hopt), List.append_nil] at hmem
      rcases List.mem_append.mp hmem with h1 | h1
      · rcases List.mem_append.mp h1 with h2 | h2
        · rcases List.mem_append.mp h2 with h3 | h3
          · rcases List.mem_append.mp h3 with h4 | h4
            · rcases List.mem_append.mp h4 with h5 | h5
              · rcases List.mem_cons.mp h5 with h6 | h6
                · have hh : headChunk g = str "grad conp stress\n" := by
                    rw [headChunk, if_neg (by rw [hopt]; decide), if_pos hopt]
                  rw [hh] at h6
                  exact absurd h6 (ne_of_mem_not_mem (mem_m_maxcycleChunk g) (by decide))
                rcases List.mem_cons.mp h6 with h7 | h7
                · exact absurd h7 (ne_of_mem_not_mem (mem_m_maxcycleChunk g) (by decide))
                rcases List.mem_cons.mp h7 with h8 | h8
                · exact absurd h8
                    (ne_of_mem_not_mem (mem_m_maxcycleChunk g) (not_mem_m_cellChunk _))
                rcases List.mem_cons.mp h8 with h9 | h9
                · exact absurd h9 (ne_of_mem_not_mem (mem_m_maxcycleChunk g) (by decide))
                exact (List.not_mem_nil _) h9
              · obtain ⟨⟨coord, site⟩, _, hf⟩ := mapM_some_mem _ hmap _ h5
                obtain ⟨x0, x1, x2, r2, _, hy⟩ := fracChunk_inv hf
                have hr : 'r' ∈ maxcycleChunk g := by
                  rw [hy]; exact mem_r_fracline site x0 x1 x2
                exact not_mem_r_maxcycle g hr
            · rcases List.mem_cons.mp h4 with h5 | h5
              · exact absurd h5 (ne_of_mem_not_mem (mem_m_maxcycleChunk g) (by decide))
              exact (List.not_mem_nil _) h5
          · obtain ⟨sp, _, hsp⟩ := List.mem_map.mp h3
            have hr : 'r' ∈ maxcycleChunk g := by
              rw [← hsp]; exact mem_r_speciesChunk sp
            exact not_mem_r_maxcycle g hr
        · rcases List.mem_cons.mp h2 with h3 | h3
          · exact absurd h3.symm (libChunk_ne_maxcycleChunk g g)
          rcases List.mem_cons.mp h3 with h4 | h4
          · exact absurd h4 (ne_of_mem_not_mem (mem_m_maxcycleChunk g) (by decide))
          exact (List.not_mem_nil _) h4
      · cases hdm : g.dump with
        | none =>
          simp only [hdm] at h1
          exact (List.not_mem_nil _) h1
        | some d =>
          simp only [hdm] at h1
          rcases List.mem_cons.mp h1 with h2 | h2
          · exact absurd h2.symm (dumpChunk_ne_maxcycleChunk d g)
          exact (List.not_mem_nil _) h2
    · rw [hhead, headChunk]
      by_cases hc : g.opt = str "conv"
      · rw [if_pos hc]
      · rw [if_neg hc, if_neg hopt]
    · rw [← hcs]
      exact List.mem_append_left _
        (List.mem_append_right _ (by rw [if_pos hopt]; exact List.mem_cons_self _ _))
    · rw [← hcs]
      simp only [hd]
      rw [getLast?_append_ne _ (List.cons_ne_nil _ _)]
      rfl
    · have hlast : cs.getLast? = some (if g.opt = str "single" then str "ewald 10.0\n"
                                       else maxcycleChunk g) := by
        rw [← hcs]
        simp only [hd, List.append_nil]
        by_cases hs : g.opt = str "single"
        · rw [if_neg (fun hn => hn hs), List.append_nil, if_pos hs,
            getLast?_append_ne _ (List.cons_ne_nil _ _),
            getLast?_cons_ne _ (List.cons_ne_nil _ _)]
          rfl
        · rw [if_pos hs, if_neg hs, getLast?_append_ne _ (List.cons_ne_nil _ _)]
          rfl
      refine ⟨?_, hlast⟩
      intro d' hEq
      rw [hlast] at hEq
      injection hEq with hv
      by_cases hs : g.opt = str "single"
      · rw [if_pos hs] at hv
        exact ewald_ne_dumpChunk d' hv
      · rw [if_neg hs] at hv
        exact (dumpChunk_ne_maxcycleChunk d' g) hv.symm

/-- Witness for C6 at the concrete calculator `wG` (`opt = "conp"`, `dump = None`). -/
theorem C6_write_keywords_witness :
    wG.writeChunks wGetPara = some wCs
    ∧ ((wG.opt = str "single" →
        wCs.head? = some (str "grad conp stress\n") ∧ maxcycleChunk wG ∉ wCs)
    ∧ (wG.opt ≠ str "single" →
        wCs.head? = some (str "opti stress " ++ (wG.opt ++ str " conjugate nosymmetry\n"))
        ∧ maxcycleChunk wG ∈ wCs
        ∧ maxcycleChunk wG = str "maxcycle " ++ (intRepr wG.steps ++ str "\n"))
    ∧ (∀ d, wG.dump = some d → wCs.getLast? = some (dumpChunk d)
        ∧ dumpChunk d = str "output cif " ++ (d ++ str "\n"))
    ∧ (wG.dump = none →
        (∀ d' : Str, wCs.getLast? ≠ some (dumpChunk d'))
        ∧ wCs.getLast? = some (if wG.opt = str "single" then str "ewald 10.0\n"
                               else maxcycleChunk wG))) :=
  ⟨wWriteEq, C6_write_keywords wGetPara wG wWriteEq⟩

/-! ## C3: scalar fields and the stress block of a constructed report -/

theorem readLoop_append_ok {lines : List Str} {as bs : List Str} {i : Nat} {g g' : GULP}
    (h : GULP.readLoop lines i as g = .ok g') :
    GULP.readLoop lines i (as ++ bs) g = GULP.readLoop lines (i + as.length) bs g' := by
  rw [readLoop_append, h]

theorem readLoop_cons_ok {lines : List Str} {i : Nat} {line : Str} {rest : List Str}
    {g g1 : GULP} (hstep : GULP.readStep lines i line g = .ok g1) :
    GULP.readLoop lines i (line :: rest) g = GULP.readLoop lines (i + 1) rest g1 := by
  rw [readLoop_cons, hstep]

theorem not_mem_of_lower {tok : Str} {d : Char} (htok : ∀ c ∈ tok, c.isLower = true)
    (hd : d.isLower = false) : d ∉ tok := by
  intro h
  rw [htok d h] at hd
  exact Bool.noConfusion hd

/-- A stress-block data row (lowercase labels, numeric tokens) fires no branch of
the scan. -/
theorem triggersAny_stressLine_false {lab1 t1 lab2 t2 : Str}
    (hl1 : ∀ c ∈ lab1, c.isLower = true) (ht1 : numTok t1)
    (hl2 : ∀ c ∈ lab2, c.isLower = true) (ht2 : numTok t2) :
    triggersAny (stressLine lab1 t1 lab2 t2) = false := by
  have key : ∀ d : Char, d ≠ ' ' → d.isLower = false → numChar d = false →
      d ∉ stressLine lab1 t1 lab2 t2 := by
    intro d hds hdl hdn
    rw [stressLine]
    exact not_mem_cons hds (not_mem_append (not_mem_of_lower hl1 hdl)
      (not_mem_cons hds (not_mem_append (not_mem_of_numChars ht1.2 hdn)
        (not_mem_cons hds (not_mem_append (not_mem_of_lower hl2 hdl)
          (not_mem_cons hds (not_mem_of_numChars ht2.2 hdn)))))))
  exact triggersAny_false_of_missing
    (key 'T' (by decide) (by decide) (by decide))
    (key 'J' (by decide) (by decide) (by decide))
    (key 'F' (by decide) (by decide) (by decide))
    (key 'C' (by decide) (by decide) (by decide))

set_option maxHeartbeats 1600000 in
/-- C3: on a report holding a `Cycle:` line, an (earlier) energy line, the
stress block whose three data rows sit 3 lines after its header, a later energy
line, a `Total CPU time` line and (when `job`) a `Job Finished` line — all
other lines benign — `read()` sets `energy` from the LAST energy line,
`cputime` from the last token of the CPU line, `iter` from the token after
`Cycle:`, `optimized` to true iff the `Job Finished` line appears, and `stress`
to the 6-vector whose components `j` / `j+3` are tokens 1 / 3 of row `j`. -/
theorem C3_read_report_fields (g : GULP) (pre post : List Str) (f1 f2 : Str)
    (ct e1 e2 cp ts0 ts1 ts2 us0 us1 us2 : Str) (n : ℤ)
    (v1 v2 vc a0 a1 a2 b0 b1 b2 : PyFloat) (job : Bool) (lines : List Str)
    (hlines : lines = pre ++
      ([cycleLine ct, energyLine e1, stressHdr, f1, f2,
        stressLine (str "xx") ts0 (str "yz") us0,
        stressLine (str "yy") ts1 (str "xz") us1,
        stressLine (str "zz") ts2 (str "xy") us2,
        energyLine e2, cpuLine cp]
       ++ ((if job then [jobLine] else []) ++ post)))
    (hpre : ∀ l ∈ pre, triggersAny l = false)
    (hpost : ∀ l ∈ post, triggersAny l = false)
    (hf1 : triggersAny f1 = false) (hf2 : triggersAny f2 = false)
    (hct : digitTok ct) (hn : pyint ct = some n)
    (he1 : numTok e1) (hv1 : pyfloat e1 = some v1)
    (he2 : numTok e2) (hv2 : pyfloat e2 = some v2) (hnn : v2.isnan = false)
    (hcp : numTok cp) (hvc : pyfloat cp = some vc)
    (ht0 : numTok ts0) (ht1 : numTok ts1) (ht2 : numTok ts2)
    (hu0 : numTok us0) (hu1 : numTok us1) (hu2 : numTok us2)
    (ha0 : pyfloat ts0 = some a0) (ha1 : pyfloat ts1 = some a1)
    (ha2 : pyfloat ts2 = some a2) (hb0 : pyfloat us0 = some b0)
    (hb1 : pyfloat us1 = some b1) (hb2 : pyfloat us2 = some b2)
    (hopt0 : g.optimized = false) :
    (g.read lines).energy = some v2
    ∧ (g.read lines).cputime = vc
    ∧ (g.read lines).iter = n
    ∧ (g.read lines).optimized = job
    ∧ (g.read lines).stress = some [a0, a1, a2, b0, b1, b2]
    ∧ (pysplit (cpuLine cp)).getLast? = some cp
    ∧ (pysplit (cycleLine ct)).get? 1 = some ct := by
  have hpre' : GULP.readLoop lines 0 pre g = .ok g := readLoop_nontrigger hpre lines 0 g
  have hr0 : lines.get? (pre.length + 5)
      = some (stressLine (str "xx") ts0 (str "yz") us0) := by
    rw [hlines, get?_append_right']
    rfl
  have hr1 : lines.get? (pre.length + 6)
      = some (stressLine (str "yy") ts1 (str "xz") us1) := by
    rw [hlines, get?_append_right']
    rfl
  have hr2 : lines.get? (pre.length + 7)
      = some (stressLine (str "zz") ts2 (str "xy") us2) := by
    rw [hlines, get?_append_right']
    rfl
  have hrow0 : triggersAny (stressLine (str "xx") ts0 (str "yz") us0) = false :=
    triggersAny_stressLine_false (by decide) ht0 (by decide) hu0
  have hrow1 : triggersAny (stressLine (str "yy") ts1 (str "xz") us1) = false :=
    triggersAny_stressLine_false (by decide) ht1 (by decide) hu1
  have hrow2 : triggersAny (stressLine (str "zz") ts2 (str "xy") us2) = false :=
    triggersAny_stressLine_false (by decide) ht2 (by decide) hu2
  have hs0 : stressRowOf (stressLine (str "xx") ts0 (str "yz") us0) = some (a0, b0) :=
    stressRowOf_stressLine (by decide) (by decide) (by decide) (by decide)
      ht0 hu0 ha0 hb0
  have hs1 : stressRowOf (stressLine (str "yy") ts1 (str "xz") us1) = some (a1, b1) :=
    stressRowOf_stressLine (by decide) (by decide) (by decide) (by decide)
      ht1 hu1 ha1 hb1
  have hs2 : stressRowOf (stressLine (str "zz") ts2 (str "xy") us2) = some (a2, b2) :=
    stressRowOf_stressLine (by decide) (by decide) (by decide) (by decide)
      ht2 hu2 ha2 hb2
  have hsb : stressBlock lines (pre.length + 1 + 1) = some [a0, a1, a2, b0, b1, b2] := by
    have q0 : pre.length + 1 + 1 + 0 + 3 = pre.length + 5 := by omega
    have q1 : pre.length + 1 + 1 + 1 + 3 = pre.length + 6 := by omega
    have q2 : pre.length + 1 + 1 + 2 + 3 = pre.length + 7 := by omega
    simp only [stressBlock, stressRowVals, q0, q1, q2, hr0, hr1, hr2, hs0, hs1, hs2]
  have hloop : GULP.readLoop lines 0 lines g = .ok
      { g with
        iter := n
        energy := some v2
        stress := some [a0, a1, a2, b0, b1, b2]
        cputime := vc
        optimized := if job then true else g.optimized } := by
    nth_rewrite 2 [hlines]
    rw [readLoop_append_ok hpre', Nat.zero_add]
    rw [List.cons_append, readLoop_cons_ok (readStep_cycleLine lines pre.length g hct hn)]
    rw [List.cons_append,
      readLoop_cons_ok (readStep_energyLine lines (pre.length + 1) _ he1 hv1)]
    rw [List.cons_append,
      readLoop_cons_ok (readStep_stressHdr lines (pre.length + 1 + 1) _ hsb)]
    rw [List.cons_append, readLoop_cons_ok (readStep_frame hf1)]
    rw [List.cons_append, readLoop_cons_ok (readStep_frame hf2)]
    rw [List.cons_append, readLoop_cons_ok (readStep_frame hrow0)]
    rw [List.cons_append, readLoop_cons_ok (readStep_frame hrow1)]
    rw [List.cons_append, readLoop_cons_ok (readStep_frame hrow2)]
    rw [List.cons_append, readLoop_cons_ok (readStep_energyLine lines _ _ he2 hv2)]
    rw [List.cons_append, readLoop_cons_ok (readStep_cpuLine lines _ _ hcp hvc)]
    rw [List.nil_append]
    cases job with
    | true =>
      rw [if_pos rfl, List.cons_append, List.nil_append,
        readLoop_cons_ok (readStep_jobLine lines _ _)]
      exact readLoop_nontrigger hpost lines _ _
    | false =>
      rw [if_neg (show ¬(false = true) from by decide), List.nil_append]
      exact readLoop_nontrigger hpost lines _ _
  have hread : g.read lines
      = { g with
          iter := n
          energy := some v2
          stress := some [a0, a1, a2, b0, b1, b2]
          cputime := vc
          optimized := if job then true else g.optimized } :=
    read_eq_of_ok hloop rfl hnn
  refine ⟨?_, ?_, ?_, ?_, ?_, ?_, ?_⟩
  · rw [hread]
  · rw [hread]
  · rw [hread]
  · rw [hread]
    cases job with
    | true => rfl
    | false => exact hopt0
  · rw [hread]
  · rw [pysplit_cpuLine hcp.1 (numTok_not_ws hcp)]
    rfl
  · rw [pysplit_cycleLine (digitTok_numTok hct).1 (numTok_not_ws (digitTok_numTok hct))]
    rfl

/-- A small constructed report for the C3 witness. -/
def wLines3 : List Str :=
  [cycleLine (str "3"), energyLine (str "1.5"), stressHdr, [], [],
    stressLine (str "xx") (str "1.0") (str "yz") (str "4.0"),
    stressLine (str "yy") (str "2.0") (str "xz") (str "5.0"),
    stressLine (str "zz") (str "3.0") (str "xy") (str "6.0"),
    energyLine (str "2.5"), cpuLine (str "0.25"), jobLine]

/-- Witness for C3 at the concrete calculator `wG` and report `wLines3`. -/
theorem C3_read_report_fields_witness :
    (wG.read wLines3).energy = some (.num (5 / 2))
    ∧ (wG.read wLines3).cputime = .num (1 / 4)
    ∧ (wG.read wLines3).iter = 3
    ∧ (wG.read wLines3).optimized = true
    ∧ (wG.read wLines3).stress
        = some [.num 1, .num 2, .num 3, .num 4, .num 5, .num 6]
    ∧ (pysplit (cpuLine (str "0.25"))).getLast? = some (str "0.25")
    ∧ (pysplit (cycleLine (str "3"))).get? 1 = some (str "3") :=
  C3_read_report_fields wG [] [] [] [] (str "3") (str "1.5") (str "2.5") (str "0.25")
    (str "1.0") (str "2.0") (str "3.0") (str "4.0") (str "5.0") (str "6.0") 3
    (.num (3 / 2)) (.num (5 / 2)) (.num (1 / 4)) (.num 1) (.num 2) (.num 3) (.num 4)
    (.num 5) (.num 6) true wLines3 (by decide)
    (fun l hl => absurd hl (List.not_mem_nil l))
    (fun l hl => absurd hl (List.not_mem_nil l))
    (by decide) (by decide) (by decide) (by decide) (by decide) (by decide)
    (by decide) (by decide) (by decide) (by decide) (by decide) (by decide)
    (by decide) (by decide) (by decide) (by decide) (by decide) (by decide)
    (by decide) (by decide) (by decide) (by decide) (by decide) (by decide)

/-! ## C4: the optimized-geometry blocks of a constructed report -/

/-- Build a `FracBlockAt` from a `get?`-correspondence with a row segment
followed by a dashed terminator. -/
theorem FracBlockAt_of_get {lines : List Str} :
    ∀ (rows : List (Str × List PyFloat)) (s : Nat) (tail : List Str),
      (∀ k, lines.get? (s + k) = (rows.map Prod.fst ++ tail).get? k) →
      (∃ term rest, tail = term :: rest ∧ hasSub term dashes12 = true) →
      (∀ rv ∈ rows, hasSub rv.1 dashes12 = false ∧ fracRow rv.1 = some rv.2) →
      FracBlockAt lines s rows := by
  intro rows
  induction rows with
  | nil =>
    intro s tail hcorr hterm _
    obtain ⟨term, rest, htail, hdash⟩ := hterm
    refine ⟨term, ?_, hdash⟩
    have h0 := hcorr 0
    rw [Nat.add_zero] at h0
    rw [h0, htail]
    rfl
  | cons rv rows ih =>
    intro s tail hcorr hterm hrows
    have h0 := hcorr 0
    rw [Nat.add_zero] at h0
    have h0' : lines.get? s = some rv.1 := by rw [h0]; rfl
    obtain ⟨hnd, hrow⟩ := hrows rv (List.mem_cons_self _ _)
    refine ⟨h0', hnd, hrow, ?_⟩
    refine ih (s + 1) tail ?_ hterm (fun rv' h => hrows rv' (List.mem_cons_of_mem _ h))
    intro k
    have hk := hcorr (k + 1)
    rw [show s + (k + 1) = s + 1 + k from by omega] at hk
    rw [hk]
    rfl

/-- A lattice-vectors data row (numeric tokens) fires no branch of the scan. -/
theorem triggersAny_vecLine_false {t0 t1 t2 : Str} (h0 : numTok t0) (h1 : numTok t1)
    (h2 : numTok t2) : triggersAny (vecLine t0 t1 t2) = false := by
  have key : ∀ d : Char, d ≠ ' ' → numChar d = false → d ∉ vecLine t0 t1 t2 := by
    intro d hds hdn
    rw [vecLine]
    exact not_mem_cons hds (not_mem_append (not_mem_of_numChars h0.2 hdn)
      (not_mem_cons hds (not_mem_append (not_mem_of_numChars h1.2 hdn)
        (not_mem_cons hds (not_mem_of_numChars h2.2 hdn)))))
  exact triggersAny_false_of_missing
    (key 'T' (by decide) (by decide)) (key 'J' (by decide) (by decide))
    (key 'F' (by decide) (by decide)) (key 'C' (by decide) (by decide))

/-- A fractional-coordinates table row fires no branch of the scan. -/
theorem triggersAny_fracRowLine_false {idx t0 t1 t2 : Str} (hi : digitTok idx)
    (h0 : numTok t0) (h1 : numTok t1) (h2 : numTok t2) :
    triggersAny (fracRowLine idx t0 t1 t2) = false := by
  have key : ∀ d : Char, d ≠ ' ' → d.isDigit = false → numChar d = false →
      d ∉ str "Si" → d ∉ str "c" → d ∉ fracRowLine idx t0 t1 t2 := by
    intro d hds hdd hdn hSi hc
    rw [fracRowLine]
    exact not_mem_cons hds (not_mem_append (not_mem_of_digits hi.2 hdd)
      (not_mem_cons hds (not_mem_append hSi
        (not_mem_cons hds (not_mem_append hc
          (not_mem_cons hds (not_mem_append (not_mem_of_numChars h0.2 hdn)
            (not_mem_cons hds (not_mem_append (not_mem_of_numChars h1.2 hdn)
              (not_mem_cons hds (not_mem_of_numChars h2.2 hdn)))))))))))
  exact triggersAny_false_of_missing
    (key 'T' (by decide) (by decide) (by decide) (by decide) (by decide))
    (key 'J' (by decide) (by decide) (by decide) (by decide) (by decide))
    (key 'F' (by decide) (by decide) (by decide) (by decide) (by decide))
    (key 'C' (by decide) (by decide) (by decide) (by decide) (by decide))

set_option maxHeartbeats 1600000 in
/-- C4: on a report holding a `Final Cartesian lattice vectors` block (three
data rows 2 lines after the header) and a `Final fractional coordinates of
atoms` block (rows from 6 lines after the header up to the dashed terminator,
coordinates in token columns 3-5), `read()` replaces `frac_coords` with the
parsed coordinate rows and `lattice` with the lattice built from the parsed
3x3 matrix. -/
theorem C4_read_geometry (g : GULP) (pre post : List Str) (c1 f1 f2 f3 f4 f5 : Str)
    (e x0 x1 x2 y0 y1 y2 z0 z1 z2 : Str)
    (w00 w01 w02 w10 w11 w12 w20 w21 w22 v : PyFloat)
    (rows : List ((Str × Str × Str × Str) × (PyFloat × PyFloat × PyFloat)))
    (lines : List Str)
    (hlines : lines = pre ++
      ([energyLine e, cartHdr, c1, vecLine x0 x1 x2, vecLine y0 y1 y2,
        vecLine z0 z1 z2, fracHdr, f1, f2, f3, f4, f5]
       ++ ((rows.map fun r => fracRowLine r.1.1 r.1.2.1 r.1.2.2.1 r.1.2.2.2)
            ++ ([dashLine] ++ post))))
    (hpre : ∀ l ∈ pre, triggersAny l = false)
    (hpost : ∀ l ∈ post, triggersAny l = false)
    (hc1 : triggersAny c1 = false)
    (hf1 : triggersAny f1 = false) (hf2 : triggersAny f2 = false)
    (hf3 : triggersAny f3 = false) (hf4 : triggersAny f4 = false)
    (hf5 : triggersAny f5 = false)
    (he : numTok e) (hv : pyfloat e = some v) (hnn : v.isnan = false)
    (hx0 : numTok x0) (hx1 : numTok x1) (hx2 : numTok x2)
    (hy0 : numTok y0) (hy1 : numTok y1) (hy2 : numTok y2)
    (hz0 : numTok z0) (hz1 : numTok z1) (hz2 : numTok z2)
    (hw00 : pyfloat x0 = some w00) (hw01 : pyfloat x1 = some w01)
    (hw02 : pyfloat x2 = some w02) (hw10 : pyfloat y0 = some w10)
    (hw11 : pyfloat y1 = some w11) (hw12 : pyfloat y2 = some w12)
    (hw20 : pyfloat z0 = some w20) (hw21 : pyfloat z1 = some w21)
    (hw22 : pyfloat z2 = some w22)
    (hrows : ∀ r ∈ rows, digitTok r.1.1 ∧ numTok r.1.2.1 ∧ numTok r.1.2.2.1
      ∧ numTok r.1.2.2.2 ∧ pyfloat r.1.2.1 = some r.2.1
      ∧ pyfloat r.1.2.2.1 = some r.2.2.1 ∧ pyfloat r.1.2.2.2 = some r.2.2.2
      ∧ hasSub (fracRowLine r.1.1 r.1.2.1 r.1.2.2.1 r.1.2.2.2) dashes12 = false) :
    (g.read lines).frac_coords = rows.map (fun r => [r.2.1, r.2.2.1, r.2.2.2])
    ∧ (g.read lines).lattice
        = Lattice.from_matrix [[w00, w01, w02], [w10, w11, w12], [w20, w21, w22]]
    ∧ (∀ r ∈ rows, pysplit (fracRowLine r.1.1 r.1.2.1 r.1.2.2.1 r.1.2.2.2)
        = [r.1.1, str "Si", str "c", r.1.2.1, r.1.2.2.1, r.1.2.2.2]) := by
  have hpre' : GULP.readLoop lines 0 pre g = .ok g := readLoop_nontrigger hpre lines 0 g
  have hg3 : lines.get? (pre.length + 3) = some (vecLine x0 x1 x2) := by
    rw [hlines, get?_append_right']
    rfl
  have hg4 : lines.get? (pre.length + 4) = some (vecLine y0 y1 y2) := by
    rw [hlines, get?_append_right']
    rfl
  have hg5 : lines.get? (pre.length + 5) = some (vecLine z0 z1 z2) := by
    rw [hlines, get?_append_right']
    rfl
  have hL0 : latticeRow lines (pre.length + 1 + 2) = some [w00, w01, w02] := by
    have e3 : pre.length + 1 + 2 = pre.length + 3 := by omega
    simp only [latticeRow, e3, hg3, latticeRowOf_vecLine hx0 hx1 hx2 hw00 hw01 hw02]
  have hL1 : latticeRow lines (pre.length + 1 + 3) = some [w10, w11, w12] := by
    have e4 : pre.length + 1 + 3 = pre.length + 4 := by omega
    simp only [latticeRow, e4, hg4, latticeRowOf_vecLine hy0 hy1 hy2 hw10 hw11 hw12]
  have hL2 : latticeRow lines (pre.length + 1 + 4) = some [w20, w21, w22] := by
    have e5 : pre.length + 1 + 4 = pre.length + 5 := by omega
    simp only [latticeRow, e5, hg5, latticeRowOf_vecLine hz0 hz1 hz2 hw20 hw21 hw22]
  have hmf : (rows.map fun r => (fracRowLine r.1.1 r.1.2.1 r.1.2.2.1 r.1.2.2.2,
        ([r.2.1, r.2.2.1, r.2.2.2] : List PyFloat))).map Prod.fst
      = rows.map fun r => fracRowLine r.1.1 r.1.2.1 r.1.2.2.1 r.1.2.2.2 := by
    rw [List.map_map]
    rfl
  have hcorr : ∀ k, lines.get? (pre.length + 12 + k)
      = ((rows.map fun r => (fracRowLine r.1.1 r.1.2.1 r.1.2.2.1 r.1.2.2.2,
            ([r.2.1, r.2.2.1, r.2.2.2] : List PyFloat))).map Prod.fst
          ++ ([dashLine] ++ post)).get? k := by
    intro k
    rw [hlines, show pre.length + 12 + k = pre.length + (k + 12) from by omega,
      get?_append_right', hmf]
    rfl
  have hfb : FracBlockAt lines (pre.length + 12)
      (rows.map fun r => (fracRowLine r.1.1 r.1.2.1 r.1.2.2.1 r.1.2.2.2,
        ([r.2.1, r.2.2.1, r.2.2.2] : List PyFloat))) := by
    refine FracBlockAt_of_get _ _ _ hcorr ⟨dashLine, post, rfl, by decide⟩ ?_
    intro rv hrv
    obtain ⟨r, hr, hpair⟩ := List.mem_map.mp hrv
    obtain ⟨hi, h0, h1, h2, hp0, hp1, hp2, hnd⟩ := hrows r hr
    rw [← hpair]
    exact ⟨hnd, fracRow_fracRowLine hi h0 h1 h2 hp0 hp1 hp2⟩
  have hb' : FracBlockAt lines (pre.length + 1 + 1 + 1 + 1 + 1 + 1 + 6)
      (rows.map fun r => (fracRowLine r.1.1 r.1.2.1 r.1.2.2.1 r.1.2.2.2,
        ([r.2.1, r.2.2.1, r.2.2.2] : List PyFloat))) := by
    have e12 : pre.length + 1 + 1 + 1 + 1 + 1 + 1 + 6 = pre.length + 12 := by omega
    rw [e12]
    exact hfb
  have htail : ∀ l ∈ ([f1, f2, f3, f4, f5]
      ++ ((rows.map fun r => fracRowLine r.1.1 r.1.2.1 r.1.2.2.1 r.1.2.2.2)
           ++ ([dashLine] ++ post))), triggersAny l = false := by
    intro l hl
    rcases List.mem_append.mp hl with h | h
    · rcases List.mem_cons.mp h with h | h
      · subst h; exact hf1
      rcases List.mem_cons.mp h with h | h
      · subst h; exact hf2
      rcases List.mem_cons.mp h with h | h
      · subst h; exact hf3
      rcases List.mem_cons.mp h with h | h
      · subst h; exact hf4
      rcases List.mem_cons.mp h with h | h
      · subst h; exact hf5
      exact absurd h (List.not_mem_nil _)
    · rcases List.mem_append.mp h with h | h
      · obtain ⟨r, hr, hline⟩ := List.mem_map.mp h
        obtain ⟨hi, h0, h1, h2, _, _, _, _⟩ := hrows r hr
        rw [← hline]
        exact triggersAny_fracRowLine_false hi h0 h1 h2
      · rcases List.mem_append.mp h with h | h
        · rcases List.mem_cons.mp h with h | h
          · subst h; decide
          · exact absurd h (List.not_mem_nil _)
        · exact hpost l h
  have hvec0 : triggersAny (vecLine x0 x1 x2) = false :=
    triggersAny_vecLine_false hx0 hx1 hx2
  have hvec1 : triggersAny (vecLine y0 y1 y2) = false :=
    triggersAny_vecLine_false hy0 hy1 hy2
  have hvec2 : triggersAny (vecLine z0 z1 z2) = false :=
    triggersAny_vecLine_false hz0 hz1 hz2
  have hloop : GULP.readLoop lines 0 lines g = .ok
      { g with
        energy := some v
        lattice := Lattice.from_matrix [[w00, w01, w02], [w10, w11, w12],
          [w20, w21, w22]]
        frac_coords := (rows.map fun r =>
          (fracRowLine r.1.1 r.1.2.1 r.1.2.2.1 r.1.2.2.2,
            ([r.2.1, r.2.2.1, r.2.2.2] : List PyFloat))).map Prod.snd } := by
    nth_rewrite 2 [hlines]
    rw [readLoop_append_ok hpre', Nat.zero_add]
    rw [List.cons_append, readLoop_cons_ok (readStep_energyLine lines pre.length g he hv)]
    rw [List.cons_append,
      readLoop_cons_ok (readStep_cartHdr lines (pre.length + 1) _ hL0 hL1 hL2)]
    rw [List.cons_append, readLoop_cons_ok (readStep_frame hc1)]
    rw [List.cons_append, readLoop_cons_ok (readStep_frame hvec0)]
    rw [List.cons_append, readLoop_cons_ok (readStep_frame hvec1)]
    rw [List.cons_append, readLoop_cons_ok (readStep_frame hvec2)]
    rw [List.cons_append,
      readLoop_cons_ok
        (readStep_fracHdr lines (pre.length + 1 + 1 + 1 + 1 + 1 + 1) _ hb')]
    exact readLoop_nontrigger htail lines _ _
  have hms : (rows.map fun r => (fracRowLine r.1.1 r.1.2.1 r.1.2.2.1 r.1.2.2.2,
        ([r.2.1, r.2.2.1, r.2.2.2] : List PyFloat))).map Prod.snd
      = rows.map fun r => ([r.2.1, r.2.2.1, r.2.2.2] : List PyFloat) := by
    rw [List.map_map]
    rfl
  rw [hms] at hloop
  have hread : g.read lines
      = { g with
          energy := some v
          lattice := Lattice.from_matrix [[w00, w01, w02], [w10, w11, w12],
            [w20, w21, w22]]
          frac_coords := rows.map fun r => ([r.2.1, r.2.2.1, r.2.2.2] : List PyFloat) } :=
    read_eq_of_ok hloop rfl hnn
  refine ⟨?_, ?_, ?_⟩
  · rw [hread]
  · rw [hread]
  · intro r hr
    obtain ⟨hi, h0, h1, h2, _, _, _, _⟩ := hrows r hr
    exact pysplit_fracRowLine hi h0 h1 h2

/-- Concrete table rows for the C4 witness. -/
def wRows4 : List ((Str × Str × Str × Str) × (PyFloat × PyFloat × PyFloat)) :=
  [((str "1", str "0.1", str "0.2", str "0.3"),
      (.num (1 / 10), .num (1 / 5), .num (3 / 10))),
   ((str "2", str "0.4", str "0.5", str "0.6"),
      (.num (2 / 5), .num (1 / 2), .num (3 / 5)))]

/-- A small constructed report for the C4 witness. -/
def wLines4 : List Str :=
  [] ++ ([energyLine (str "1.5"), cartHdr, [], vecLine (str "1.0") (str "0.0") (str "0.0"),
      vecLine (str "0.0") (str "2.0") (str "0.0"),
      vecLine (str "0.0") (str "0.0") (str "3.0"), fracHdr, [], [], [], [], []]
    ++ ((wRows4.map fun r => fracRowLine r.1.1 r.1.2.1 r.1.2.2.1 r.1.2.2.2)
         ++ ([dashLine] ++ [])))

/-- Witness for C4 at the concrete calculator `wG` and report `wLines4`. -/
theorem C4_read_geometry_witness :
    (wG.read wLines4).frac_coords = wRows4.map (fun r => [r.2.1, r.2.2.1, r.2.2.2])
    ∧ (wG.read wLines4).lattice
        = Lattice.from_matrix [[.num 1, .num 0, .num 0], [.num 0, .num 2, .num 0],
            [.num 0, .num 0, .num 3]]
    ∧ (∀ r ∈ wRows4, pysplit (fracRowLine r.1.1 r.1.2.1 r.1.2.2.1 r.1.2.2.2)
        = [r.1.1, str "Si", str "c", r.1.2.1, r.1.2.2.1, r.1.2.2.2]) :=
  C4_read_geometry wG [] [] [] [] [] [] [] [] (str "1.5")
    (str "1.0") (str "0.0") (str "0.0") (str "0.0") (str "2.0") (str "0.0")
    (str "0.0") (str "0.0") (str "3.0")
    (.num 1) (.num 0) (.num 0) (.num 0) (.num 2) (.num 0) (.num 0) (.num 0) (.num 3)
    (.num (3 / 2)) wRows4 wLines4 rfl
    (fun l hl => absurd hl (List.not_mem_nil l))
    (fun l hl => absurd hl (List.not_mem_nil l))
    (by decide) (by decide) (by decide) (by decide) (by decide) (by decide)
    (by decide) (by decide) (by decide)
    (by decide) (by decide) (by decide) (by decide) (by decide) (by decide)
    (by decide) (by decide) (by decide)
    (by decide) (by decide) (by decide) (by decide) (by decide) (by decide)
    (by decide) (by decide) (by decide)
    (by decide)

/-! ## C1: the forces table and the merged-column splitter -/

/-- Build a `ForcesBlockAt` from a `get?`-correspondence with a row segment
followed by a dashed terminator. -/
theorem ForcesBlockAt_of_get {lines : List Str} :
    ∀ (rows : List (Str × List PyFloat)) (s : Nat) (tail : List Str),
      (∀ k, lines.get? (s + k) = (rows.map Prod.fst ++ tail).get? k) →
      (∃ term rest, tail = term :: rest ∧ hasSub term dashes12 = true) →
      (∀ rv ∈ rows, hasSub rv.1 dashes12 = false ∧ forceRow rv.1 = some rv.2) →
      ForcesBlockAt lines s rows := by
  intro rows
  induction rows with
  | nil =>
    intro s tail hcorr hterm _
    obtain ⟨term, rest, htail, hdash⟩ := hterm
    refine ⟨term, ?_, hdash⟩
    have h0 := hcorr 0
    rw [Nat.add_zero] at h0
    rw [h0, htail]
    rfl
  | cons rv rows ih =>
    intro s tail hcorr hterm hrows
    have h0 := hcorr 0
    rw [Nat.add_zero] at h0
    have h0' : lines.get? s = some rv.1 := by rw [h0]; rfl
    obtain ⟨hnd, hrow⟩ := hrows rv (List.mem_cons_self _ _)
    refine ⟨h0', hnd, hrow, ?_⟩
    refine ih (s + 1) tail ?_ hterm (fun rv' h => hrows rv' (List.mem_cons_of_mem _ h))
    intro k
    have hk := hcorr (k + 1)
    rw [show s + (k + 1) = s + 1 + k from by omega] at hk
    rw [hk]
    rfl

theorem triggersAny_forceLine3_false {idx a b c : Str} (hi : digitTok idx)
    (ha : numTok a) (hb : numTok b) (hc : numTok c) :
    triggersAny (forceLine3 idx a b c) = false := by
  have key : ∀ d : Char, d ≠ ' ' → d.isDigit = false → numChar d = false →
      d ∉ str "Si" → d ∉ str "c" → d ∉ forceLine3 idx a b c := by
    intro d hds hdd hdn hSi hcc
    rw [forceLine3]
    exact not_mem_cons hds (not_mem_append (not_mem_of_digits hi.2 hdd)
      (not_mem_cons hds (not_mem_append hSi
        (not_mem_cons hds (not_mem_append hcc
          (not_mem_cons hds (not_mem_append (not_mem_of_numChars ha.2 hdn)
            (not_mem_cons hds (not_mem_append (not_mem_of_numChars hb.2 hdn)
              (not_mem_cons hds (not_mem_of_numChars hc.2 hdn)))))))))))
  exact triggersAny_false_of_missing
    (key 'T' (by decide) (by decide) (by decide) (by decide) (by decide))
    (key 'J' (by decide) (by decide) (by decide) (by decide) (by decide))
    (key 'F' (by decide) (by decide) (by decide) (by decide) (by decide))
    (key 'C' (by decide) (by decide) (by decide) (by decide) (by decide))

theorem triggersAny_forceLine2_false {idx a b : Str} (hi : digitTok idx)
    (ha : numTok a) (hb : numTok b) :
    triggersAny (forceLine2 idx a b) = false := by
  have key : ∀ d : Char, d ≠ ' ' → d.isDigit = false → numChar d = false →
      d ∉ str "Si" → d ∉ str "c" → d ∉ forceLine2 idx a b := by
    intro d hds hdd hdn hSi hcc
    rw [forceLine2]
    exact not_mem_cons hds (not_mem_append (not_mem_of_digits hi.2 hdd)
      (not_mem_cons hds (not_mem_append hSi
        (not_mem_cons hds (not_mem_append hcc
          (not_mem_cons hds (not_mem_append (not_mem_of_numChars ha.2 hdn)
            (not_mem_cons hds (not_mem_of_numChars hb.2 hdn)))))))))
  exact triggersAny_false_of_missing
    (key 'T' (by decide) (by decide) (by decide) (by decide) (by decide))
    (key 'J' (by decide) (by decide) (by decide) (by decide) (by decide))
    (key 'F' (by decide) (by decide) (by decide) (by decide) (by decide))
    (key 'C' (by decide) (by decide) (by decide) (by decide) (by decide))

theorem triggersAny_forceLine1_false {idx a : Str} (hi : digitTok idx)
    (ha : numTok a) : triggersAny (forceLine1 idx a) = false := by
  have key : ∀ d : Char, d ≠ ' ' → d.isDigit = false → numChar d = false →
      d ∉ str "Si" → d ∉ str "c" → d ∉ forceLine1 idx a := by
    intro d hds hdd hdn hSi hcc
    rw [forceLine1]
    exact not_mem_cons hds (not_mem_append (not_mem_of_digits hi.2 hdd)
      (not_mem_cons hds (not_mem_append hSi
        (not_mem_cons hds (not_mem_append hcc
          (not_mem_cons hds (not_mem_of_numChars ha.2 hdn)))))))
  exact triggersAny_false_of_missing
    (key 'T' (by decide) (by decide) (by decide) (by decide) (by decide))
    (key 'J' (by decide) (by decide) (by decide) (by decide) (by decide))
    (key 'F' (by decide) (by decide) (by decide) (by decide) (by decide))
    (key 'C' (by decide) (by decide) (by decide) (by decide) (by decide))

/-- A well-formed force-table row fires no branch of the scan, whatever its
merge pattern. -/
theorem triggersAny_MRow_false {r : MRow} (h : r.Ok) : triggersAny r.line = false := by
  cases r with
  | plain i a b c =>
    obtain ⟨hi, ha, hb, hc, _, _⟩ := h
    exact triggersAny_forceLine3_false hi ha hb hc
  | merge01 i a b c =>
    obtain ⟨hi, ha, hb, hc, _, _, _⟩ := h
    exact triggersAny_forceLine2_false hi (numTok_append ha hb) hc
  | merge12 i a b c =>
    obtain ⟨hi, ha, hb, hc, _, _, _, _⟩ := h
    exact triggersAny_forceLine2_false hi ha (numTok_append hb hc)
  | merge012 i a b c =>
    obtain ⟨hi, ha, hb, hc, _, _, _, _, _⟩ := h
    exact triggersAny_forceLine1_false hi (numTok_append ha (numTok_append hb hc))

set_option maxHeartbeats 1600000 in
/-- C1: on a report holding a `Final internal derivatives` table (well-formed
rows from 6 lines after the header up to the dashed terminator), `read()`
stores in `forces` one row of exactly three components per atom line, each the
parsed token negated and converted by `eV / Ang` — also when adjacent numeric
columns are merged by a negative-sign collision, in which case the merged token
is split at its interior minus signs into the missing columns (all four merge
patterns of `MRow`). -/
theorem C1_read_forces (g : GULP) (pre post : List Str) (f1 f2 f3 f4 f5 : Str)
    (e : Str) (v : PyFloat)
    (rows : List (MRow × (PyFloat × PyFloat × PyFloat)))
    (lines : List Str)
    (hlines : lines = pre ++
      ([energyLine e, derivHdr, f1, f2, f3, f4, f5]
       ++ ((rows.map fun r => r.1.line) ++ ([dashLine] ++ post))))
    (hpre : ∀ l ∈ pre, triggersAny l = false)
    (hpost : ∀ l ∈ post, triggersAny l = false)
    (hf1 : triggersAny f1 = false) (hf2 : triggersAny f2 = false)
    (hf3 : triggersAny f3 = false) (hf4 : triggersAny f4 = false)
    (hf5 : triggersAny f5 = false)
    (he : numTok e) (hv : pyfloat e = some v) (hnn : v.isnan = false)
    (hrows : ∀ r ∈ rows, r.1.Ok ∧ pyfloat r.1.tok0 = some r.2.1
      ∧ pyfloat r.1.tok1 = some r.2.2.1 ∧ pyfloat r.1.tok2 = some r.2.2.2
      ∧ hasSub r.1.line dashes12 = false) :
    (g.read lines).forces = some (rows.map fun r =>
      [(r.2.1.neg.mulQ eV).divQ Ang, (r.2.2.1.neg.mulQ eV).divQ Ang,
        (r.2.2.2.neg.mulQ eV).divQ Ang])
    ∧ (∀ r ∈ rows, forceRow r.1.line = some
        [(r.2.1.neg.mulQ eV).divQ Ang, (r.2.2.1.neg.mulQ eV).divQ Ang,
          (r.2.2.2.neg.mulQ eV).divQ Ang]) := by
  have hpre' : GULP.readLoop lines 0 pre g = .ok g := readLoop_nontrigger hpre lines 0 g
  have hrowsF : ∀ r ∈ rows, forceRow r.1.line = some
      [(r.2.1.neg.mulQ eV).divQ Ang, (r.2.2.1.neg.mulQ eV).divQ Ang,
        (r.2.2.2.neg.mulQ eV).divQ Ang] := by
    intro r hr
    obtain ⟨hok, h0, h1, h2, _⟩ := hrows r hr
    exact forceRow_MRow hok h0 h1 h2
  have hmf : (rows.map fun r => (r.1.line,
        ([(r.2.1.neg.mulQ eV).divQ Ang, (r.2.2.1.neg.mulQ eV).divQ Ang,
          (r.2.2.2.neg.mulQ eV).divQ Ang] : List PyFloat))).map Prod.fst
      = rows.map fun r => r.1.line := by
    rw [List.map_map]
    rfl
  have hcorr : ∀ k, lines.get? (pre.length + 7 + k)
      = ((rows.map fun r => (r.1.line,
            ([(r.2.1.neg.mulQ eV).divQ Ang, (r.2.2.1.neg.mulQ eV).divQ Ang,
              (r.2.2.2.neg.mulQ eV).divQ Ang] : List PyFloat))).map Prod.fst
          ++ ([dashLine] ++ post)).get? k := by
    intro k
    rw [hlines, show pre.length + 7 + k = pre.length + (k + 7) from by omega,
      get?_append_right', hmf]
    rfl
  have hfb : ForcesBlockAt lines (pre.length + 7)
      (rows.map fun r => (r.1.line,
        ([(r.2.1.neg.mulQ eV).divQ Ang, (r.2.2.1.neg.mulQ eV).divQ Ang,
          (r.2.2.2.neg.mulQ eV).divQ Ang] : List PyFloat))) := by
    refine ForcesBlockAt_of_get _ _ _ hcorr ⟨dashLine, post, rfl, by decide⟩ ?_
    intro rv hrv
    obtain ⟨r, hr, hpair⟩ := List.mem_map.mp hrv
    obtain ⟨_, _, _, _, hnd⟩ := hrows r hr
    rw [← hpair]
    exact ⟨hnd, hrowsF r hr⟩
  have hb' : ForcesBlockAt lines (pre.length + 1 + 6)
      (rows.map fun r => (r.1.line,
        ([(r.2.1.neg.mulQ eV).divQ Ang, (r.2.2.1.neg.mulQ eV).divQ Ang,
          (r.2.2.2.neg.mulQ eV).divQ Ang] : List PyFloat))) := by
    have e7 : pre.length + 1 + 6 = pre.length + 7 := by omega
    rw [e7]
    exact hfb
  have htail : ∀ l ∈ ([f1, f2, f3, f4, f5]
      ++ ((rows.map fun r => r.1.line) ++ ([dashLine] ++ post))),
      triggersAny l = false := by
    intro l hl
    rcases List.mem_append.mp hl with h | h
    · rcases List.mem_cons.mp h with h | h
      · subst h; exact hf1
      rcases List.mem_cons.mp h with h | h
      · subst h; exact hf2
      rcases List.mem_cons.mp h with h | h
      · subst h; exact hf3
      rcases List.mem_cons.mp h with h | h
      · subst h; exact hf4
      rcases List.mem_cons.mp h with h | h
      · subst h; exact hf5
      exact absurd h (List.not_mem_nil _)
    · rcases List.mem_append.mp h with h | h
      · obtain ⟨r, hr, hline⟩ := List.mem_map.mp h
        obtain ⟨hok, _, _, _, _⟩ := hrows r hr
        rw [← hline]
        exact triggersAny_MRow_false hok
      · rcases List.mem_append.mp h with h | h
        · rcases List.mem_cons.mp h with h | h
          · subst h; decide
          · exact absurd h (List.not_mem_nil _)
        · exact hpost l h
  have hloop : GULP.readLoop lines 0 lines g = .ok
      { g with
        energy := some v
        forces := some ((rows.map fun r => (r.1.line,
          ([(r.2.1.neg.mulQ eV).divQ Ang, (r.2.2.1.neg.mulQ eV).divQ Ang,
            (r.2.2.2.neg.mulQ eV).divQ Ang] : List PyFloat))).map Prod.snd) } := by
    nth_rewrite 2 [hlines]
    rw [readLoop_append_ok hpre', Nat.zero_add]
    rw [List.cons_append, readLoop_cons_ok (readStep_energyLine lines pre.length g he hv)]
    rw [List.cons_append,
      readLoop_cons_ok (readStep_derivHdr lines (pre.length + 1) _ hb')]
    exact readLoop_nontrigger htail lines _ _
  have hms : (rows.map fun r => (r.1.line,
        ([(r.2.1.neg.mulQ eV).divQ Ang, (r.2.2.1.neg.mulQ eV).divQ Ang,
          (r.2.2.2.neg.mulQ eV).divQ Ang] : List PyFloat))).map Prod.snd
      = rows.map fun r =>
        ([(r.2.1.neg.mulQ eV).divQ Ang, (r.2.2.1.neg.mulQ eV).divQ Ang,
          (r.2.2.2.neg.mulQ eV).divQ Ang] : List PyFloat) := by
    rw [List.map_map]
    rfl
  rw [hms] at hloop
  have hread : g.read lines
      = { g with
          energy := some v
          forces := some (rows.map fun r =>
            ([(r.2.1.neg.mulQ eV).divQ Ang, (r.2.2.1.neg.mulQ eV).divQ Ang,
              (r.2.2.2.neg.mulQ eV).divQ Ang] : List PyFloat)) } :=
    read_eq_of_ok hloop rfl hnn
  exact ⟨by rw [hread], hrowsF⟩

/-- Concrete force-table rows for the C1 witness: one row per merge pattern. -/
def wRows1 : List (MRow × (PyFloat × PyFloat × PyFloat)) :=
  [(.plain (str "1") (str "0.1") (str "0.2") (str "0.3"),
      (.num (1 / 10), .num (1 / 5), .num (3 / 10))),
   (.merge01 (str "2") (str "0.1") (str "-0.2") (str "0.3"),
      (.num (1 / 10), .num (-(1 / 5)), .num (3 / 10))),
   (.merge12 (str "3") (str "0.1") (str "0.2") (str "-0.3"),
      (.num (1 / 10), .num (1 / 5), .num (-(3 / 10)))),
   (.merge012 (str "4") (str "0.1") (str "-0.2") (str "-0.3"),
      (.num (1 / 10), .num (-(1 / 5)), .num (-(3 / 10))))]

/-- A small constructed report for the C1 witness. -/
def wLines1 : List Str :=
  [] ++ ([energyLine (str "1.5"), derivHdr, [], [], [], [], []]
    ++ ((wRows1.map fun r => r.1.line) ++ ([dashLine] ++ [])))

/-- Witness for C1 at the concrete calculator `wG` and report `wLines1`,
covering all four merge patterns. -/
theorem C1_read_forces_witness :
    (wG.read wLines1).forces = some (wRows1.map fun r =>
      [(r.2.1.neg.mulQ eV).divQ Ang, (r.2.2.1.neg.mulQ eV).divQ Ang,
        (r.2.2.2.neg.mulQ eV).divQ Ang])
    ∧ (∀ r ∈ wRows1, forceRow r.1.line = some
        [(r.2.1.neg.mulQ eV).divQ Ang, (r.2.2.1.neg.mulQ eV).divQ Ang,
          (r.2.2.2.neg.mulQ eV).divQ Ang]) :=
  C1_read_forces wG [] [] [] [] [] [] [] (str "1.5") (.num (3 / 2)) wRows1 wLines1
    rfl (fun l hl => absurd hl (List.not_mem_nil l))
    (fun l hl => absurd hl (List.not_mem_nil l))
    (by decide) (by decide) (by decide) (by decide) (by decide)
    (by decide) (by decide) (by decide) (by decide)

end PyxtalGulp
